import Mathlib

/-!
# UX-Flow-Extractor: verification of the extraction and layout core

Shallow embedding of the two algorithmic components of the repository:

* `src/services/videoProcessor.ts` — two iterations of the keyframe extraction
  pipeline.  The first iteration (`calculateSimilarity`, scan interval 0.5 s,
  forced first/last checkpoint with a 99.8 % final-frame dedupe) and the second
  iteration (`getStructuralDifference`, `isSolidColor`, scan interval 0.3 s, no
  special treatment of the last checkpoint) are embedded side by side with the
  suffixes `1` and `2`.
* `src/components/Whiteboard.tsx` and the unnamed second whiteboard variant —
  `calculateInitialLayout`.  The two variants differ only in layout constants,
  so the embedding is parametrised by a `LayoutConfig` with one concrete
  configuration per variant.

Modelling conventions:
* JS numbers are modelled as `ℚ` (all quantities involved are produced by
  additions, multiplications and divisions of integers, which JS floats track
  exactly for these magnitudes at spec level).  `NaN`/`Infinity` are not
  representable; theorems therefore carry positivity or nonemptiness
  hypotheses matching the situations in which the browser code runs
  (nonempty pixel buffers, positive scan interval).
* A `Uint8ClampedArray` of RGBA data is modelled as a `List Pixel`
  (the JS code strides over it four bytes at a time).
* The event-driven seek loops are modelled as structural recursion over the
  precomputed checkpoint list; the BFS `while` loop is modelled with an
  explicit fuel of `screens.length + edges.length`, proven sufficient below
  (`bfsLoop_queue_empty`).
-/

namespace UXFlow

/-- One RGBA pixel of a downscaled diff buffer. -/
structure Pixel where
  r : ℕ
  g : ℕ
  b : ℕ
  a : ℕ
deriving DecidableEq, Repr

/-- A `Uint8ClampedArray` holding RGBA data, viewed pixel-by-pixel. -/
abbrev Buffer := List Pixel

/-- `Math.abs (x - y)` for the byte values of two channels. -/
def absDiff (x y : ℕ) : ℕ := (x - y) + (y - x)

/-- `rDiff + gDiff + bDiff` for one pixel position (alpha ignored, as in the
source). -/
def pixelDiff (p q : Pixel) : ℕ :=
  absDiff p.r q.r + absDiff p.g q.g + absDiff p.b q.b

/-- Variant 1 `calculateSimilarity` (`videoProcessor.ts`): fraction of pixels
whose summed RGB difference stays within the noise floor 20; returns 0
outright when the two arrays have different lengths. -/
def calculateSimilarity (data1 data2 : Buffer) : ℚ :=
  if data1.length ≠ data2.length then 0
  else
    let totalPixels := data1.length
    let diffCount :=
      (((data1.zip data2).filter fun pq => decide (20 < pixelDiff pq.1 pq.2))).length
    1 - (diffCount : ℚ) / (totalPixels : ℚ)

/-- Variant 2 `getStructuralDifference`: fraction of pixels whose summed RGB
difference exceeds the noise floor 45 (`15/255` per channel, i.e. 45 summed).
The JS loop walks `curr`; the two buffers always have the same length in every
call site (both come from the same 64×64 canvas), which the `zip` mirrors. -/
def getStructuralDifference (curr prev : Buffer) : ℚ :=
  let len := curr.length
  let diffSum :=
    (((curr.zip prev).filter fun pq => decide (45 < pixelDiff pq.1 pq.2))).length
  (diffSum : ℚ) / (len : ℚ)

/-- Variant 2 `isSolidColor`: average colour over the buffer, then compare the
centre pixel against the average; a deviation under 10 classifies the frame as
a solid colour.  (Callers only pass nonempty 64×64 buffers; on `[]` the model
returns `true` where JS would produce `NaN` comparisons.) -/
def isSolidColor (data : Buffer) : Bool :=
  let totalPixels := data.length
  let avgR : ℚ := ((data.map fun p => (p.r : ℚ)).sum) / (totalPixels : ℚ)
  let avgG : ℚ := ((data.map fun p => (p.g : ℚ)).sum) / (totalPixels : ℚ)
  let avgB : ℚ := ((data.map fun p => (p.b : ℚ)).sum) / (totalPixels : ℚ)
  let center := data.getD (totalPixels / 2) ⟨0, 0, 0, 0⟩
  decide (|(center.r : ℚ) - avgR| + |(center.g : ℚ) - avgG| + |(center.b : ℚ) - avgB| < 10)

/-- A `CapturedFrame`: the timestamp recorded by the pipeline together with the
diff-buffer content captured at that instant (the full-resolution JPEG data URL
carries the same image at higher resolution and plays no role in any decision,
so the buffer stands in for it). -/
structure Frame where
  time : ℚ
  buf : Buffer
deriving DecidableEq, Repr

/-- Variant 1 checkpoint schedule: `for (t = 0; t < duration; t += scanInterval)`
followed by the forced-end fixup — append `duration` when the gap to the last
regular checkpoint exceeds 0.1 s, otherwise overwrite the last entry with
`duration`.  `(List.range ⌈d/s⌉.toNat).map (· * s)` is the exact set of loop
iterates for `0 < s` (rational arithmetic; the JS accumulation `t += s` computes
the same values). -/
def checkPoints1 (duration scanInterval : ℚ) : List ℚ :=
  let base := (List.range (⌈duration / scanInterval⌉.toNat)).map
    fun (k : ℕ) => (k : ℚ) * scanInterval
  if 1/10 < duration - base.getLastD 0 then base ++ [duration]
  else if 0 < base.length then base.dropLast ++ [duration]
  else base

/-- Variant 1 per-checkpoint keep decision, exactly in the order of the
`seeked` handler: the 0.99 near-duplicate test against the most recently
captured buffer, then the unconditional first/last override softened only by
the 0.998 near-perfect dedupe. -/
def isDifferent1 (lastCaptured : Option Buffer) (currentDiffData : Buffer)
    (framesEmpty isLast : Bool) : Bool :=
  let isDifferent :=
    match lastCaptured with
    | none => true
    | some lb => !(decide ((99 : ℚ)/100 < calculateSimilarity lb currentDiffData))
  if framesEmpty || isLast then
    match lastCaptured with
    | none => true
    | some lb => !(decide ((998 : ℚ)/1000 < calculateSimilarity lb currentDiffData))
  else isDifferent

/-- Variant 1 extraction loop.  `video t` is the diff buffer decoded at
timestamp `t`; the loop stops early once `maxFrames` frames are captured
(checked before each checkpoint, as in `processNextCheckpoint`).  Returns the
captured frames together with the final `lastCapturedDiffData`. -/
def extractLoop1 (video : ℚ → Buffer) (maxFrames : ℕ) :
    List ℚ → List Frame → Option Buffer → List Frame × Option Buffer
  | [], frames, lastCaptured => (frames, lastCaptured)
  | t :: rest, frames, lastCaptured =>
    if maxFrames ≤ frames.length then (frames, lastCaptured)
    else
      let currentDiffData := video t
      if isDifferent1 lastCaptured currentDiffData frames.isEmpty rest.isEmpty then
        extractLoop1 video maxFrames rest (frames ++ [⟨t, currentDiffData⟩])
          (some currentDiffData)
      else
        extractLoop1 video maxFrames rest frames lastCaptured

/-- Variant 1 `extractFramesFromVideo` (defaults `scanInterval = 0.5`,
`maxFrames = 80`). -/
def extractFramesFromVideo1 (video : ℚ → Buffer) (duration scanInterval : ℚ)
    (maxFrames : ℕ) : List Frame :=
  (extractLoop1 video maxFrames (checkPoints1 duration scanInterval) [] none).1

/-- Variant 2 checkpoint schedule: `currentTime` starts at 0, the loop runs
while `¬(currentTime > duration)` and advances by `scanInterval`; for
`duration < 0` the guard fails immediately. -/
def checkPoints2 (duration scanInterval : ℚ) : List ℚ :=
  if duration < 0 then []
  else (List.range (⌊duration / scanInterval⌋.toNat + 1)).map
    fun (k : ℕ) => (k : ℚ) * scanInterval

/-- Variant 2 keep decision: always keep when no baseline exists, otherwise
keep iff the structural difference against the last *kept* buffer exceeds 2 %
and the frame is not a solid colour. -/
def shouldKeep2 (currentDiffData : Buffer) (prevDiffData : Option Buffer) : Bool :=
  match prevDiffData with
  | none => true
  | some p =>
    decide ((2 : ℚ)/100 < getStructuralDifference currentDiffData p)
      && !(isSolidColor currentDiffData)

/-- Variant 2 extraction loop (`processFrame`/`onseeked`); the `maxFrames` cap
is checked before each checkpoint.  Returns frames and final baseline. -/
def extractLoop2 (video : ℚ → Buffer) (maxFrames : ℕ) :
    List ℚ → List Frame → Option Buffer → List Frame × Option Buffer
  | [], frames, prevDiffData => (frames, prevDiffData)
  | t :: rest, frames, prevDiffData =>
    if maxFrames ≤ frames.length then (frames, prevDiffData)
    else
      let currentDiffData := video t
      if shouldKeep2 currentDiffData prevDiffData then
        extractLoop2 video maxFrames rest (frames ++ [⟨t, currentDiffData⟩])
          (some currentDiffData)
      else
        extractLoop2 video maxFrames rest frames prevDiffData

/-- Variant 2 `extractFramesFromVideo` (defaults `scanInterval = 0.3`,
`maxFrames = 50`). -/
def extractFramesFromVideo2 (video : ℚ → Buffer) (duration scanInterval : ℚ)
    (maxFrames : ℕ) : List Frame :=
  (extractLoop2 video maxFrames (checkPoints2 duration scanInterval) [] none).1

/-! ## Sitemap graph and `calculateInitialLayout` -/

/-- `ScreenNode` from `types.ts` (the optional layout coordinates live on
`LayoutNode` instead). -/
structure ScreenNode where
  id : String
  label : String
  description : String
  frameIndex : ℕ
deriving DecidableEq, Repr

/-- `FlowEdge` from `types.ts`. -/
structure FlowEdge where
  fromId : String
  toId : String
  label : String
deriving DecidableEq, Repr

/-- `AnalysisResult` from `types.ts`. -/
structure AnalysisResult where
  screens : List ScreenNode
  edges : List FlowEdge
deriving DecidableEq, Repr

/-- `LayoutNode` from `Whiteboard.tsx`. -/
structure LayoutNode where
  id : String
  label : String
  description : String
  frameIndex : ℕ
  x : ℚ
  y : ℚ
  level : ℕ
  orderInLevel : ℕ
deriving DecidableEq, Repr

/-- Lookup in a JS object used as a string-keyed map, modelled as an
insertion-ordered association list (`Object.entries` iterates string keys in
insertion order, which the layout relies on when grouping ids by level). -/
def lookupId (x : String) : List (String × ℕ) → Option ℕ
  | [] => none
  | (k, v) :: rest => if k = x then some v else lookupId x rest

/-- One entry of the BFS queue: `{ id, level }`. -/
structure BfsEntry where
  id : String
  level : ℕ
deriving DecidableEq, Repr

/-- The state of the BFS `while` loop. -/
structure BfsState where
  levels : List (String × ℕ)
  processed : Finset String
  queue : List BfsEntry
deriving DecidableEq

/-- The BFS `while (queue.length > 0)` loop of `calculateInitialLayout`,
written with explicit fuel; `bfsLoop_queue_empty` below shows that the fuel
used by `assignLevels` always suffices to drain the queue. -/
def bfsLoop (edges : List FlowEdge) : ℕ → List BfsEntry → Finset String →
    List (String × ℕ) → BfsState
  | 0, queue, processed, levels => ⟨levels, processed, queue⟩
  | fuel + 1, queue, processed, levels =>
    match queue with
    | [] => ⟨levels, processed, []⟩
    | en :: rest =>
      if en.id ∈ processed then bfsLoop edges fuel rest processed levels
      else
        let processed1 := insert en.id processed
        let levels1 := levels ++ [(en.id, en.level)]
        let children := (edges.filter fun e => e.fromId = en.id).map FlowEdge.toId
        let pushes := (children.filter fun c => decide (c ∉ processed1)).map
          fun c => BfsEntry.mk c (en.level + 1)
        bfsLoop edges fuel (rest ++ pushes) processed1 levels1

/-- `roots`: the screens with no incoming edge. -/
def rootsOf (data : AnalysisResult) : List ScreenNode :=
  data.screens.filter fun s => decide (s.id ∉ data.edges.map FlowEdge.toId)

/-- `startNodes`: the roots, or the first screen when every node has an
incoming edge. -/
def startNodesOf (data : AnalysisResult) : List ScreenNode :=
  if 0 < (rootsOf data).length then rootsOf data else data.screens.take 1

/-- The initial BFS queue: every start node at level 0. -/
def startQueue (data : AnalysisResult) : List BfsEntry :=
  (startNodesOf data).map fun n => BfsEntry.mk n.id 0

/-- The BFS run performed by `calculateInitialLayout`. -/
def bfsRun (data : AnalysisResult) : BfsState :=
  bfsLoop data.edges (data.screens.length + data.edges.length) (startQueue data) ∅ []

/-- The `data.screens.forEach(s => { if (levels[s.id] === undefined)
levels[s.id] = 0 })` pass. -/
def defaultPass (screens : List ScreenNode) (l : List (String × ℕ)) :
    List (String × ℕ) :=
  screens.foldl
    (fun acc s => if (lookupId s.id acc).isNone then acc ++ [(s.id, 0)] else acc) l

/-- The level map of `calculateInitialLayout`: roots (no incoming edge), or the
first screen as fallback, seed a BFS; afterwards every screen still missing
defaults to level 0. -/
def assignLevels (data : AnalysisResult) : List (String × ℕ) :=
  defaultPass data.screens (bfsRun data).levels

/-- `nodesByLevel[l]`: the ids assigned level `l`, in insertion order of the
level map. -/
def nodesByLevel (levels : List (String × ℕ)) (l : ℕ) : List String :=
  (levels.filter fun p => p.2 = l).map Prod.fst

/-- `Math.max(...Object.values(levels))` over the `ℕ`-valued level map (the
map is nonempty whenever there is at least one screen, which every caller
guarantees). -/
def maxLevelOf (levels : List (String × ℕ)) : ℕ :=
  (levels.map Prod.snd).foldr max 0

/-- `getFrameIndex`: `data.screens.find(s => s.id === id)?.frameIndex || 0`. -/
def getFrameIndex (data : AnalysisResult) (id : String) : ℕ :=
  ((data.screens.find? fun s => s.id = id).map ScreenNode.frameIndex).getD 0

/-- The record produced for each node before sorting a level. -/
structure NodeWeight where
  id : String
  parentWeight : ℚ
  timeWeight : ℕ
deriving DecidableEq, Repr

/-- The sort comparator `(a, b) => |a.pw − b.pw| > 0.01 ? a.pw − b.pw
: a.tw − b.tw`, as the "may `a` stay before `b`" relation of a stable sort. -/
def weightLe (a b : NodeWeight) : Bool :=
  if (1 : ℚ)/100 < |a.parentWeight - b.parentWeight| then
    decide (a.parentWeight ≤ b.parentWeight)
  else decide ((a.timeWeight : ℚ) ≤ (b.timeWeight : ℚ))

/-- The `forEach((id, idx) => finalPositions[id] = idx)` block for one level:
each id of `xs` paired with its index, starting at `start`. -/
def blockAux : List String → ℕ → List (String × ℕ)
  | [], _ => []
  | x :: rest, i => (x, i) :: blockAux rest (i + 1)

/-- Index block starting at 0. -/
def blockOf (xs : List String) : List (String × ℕ) := blockAux xs 0

/-- The `nodeWeights` computed for level `l > 0`: parents are the sources of
incoming edges whose `finalPositions` entry is already resolved (strictly
lower levels); no resolved parent yields the sentinel weight 9999. -/
def nodeWeightsOf (data : AnalysisResult) (levels fp : List (String × ℕ))
    (l : ℕ) : List NodeWeight :=
  (nodesByLevel levels l).map fun id =>
    let parents := (data.edges.filter fun e => e.toId = id).map FlowEdge.fromId
    let validParents := parents.filter fun pid => (lookupId pid fp).isSome
    let parentWeight : ℚ :=
      if validParents.length = 0 then 9999
      else ((validParents.map fun pid => ((lookupId pid fp).getD 0 : ℚ)).sum)
        / (validParents.length : ℚ)
    NodeWeight.mk id parentWeight (getFrameIndex data id)

/-- The ordered ids of level `l` given the positions resolved so far: input
order for level 0, barycenter-sorted order above. -/
def orderedIds (data : AnalysisResult) (levels fp : List (String × ℕ))
    (l : ℕ) : List String :=
  if l = 0 then nodesByLevel levels 0
  else ((nodeWeightsOf data levels fp l).mergeSort weightLe).map NodeWeight.id

/-- The `finalPositions` assignments produced for one level. -/
def levelBlock (data : AnalysisResult) (levels fp : List (String × ℕ))
    (l : ℕ) : List (String × ℕ) :=
  blockOf (orderedIds data levels fp l)

/-- The `for (let l = 0; l <= maxLevel; l++)` loop building `finalPositions`. -/
def buildPosAux (data : AnalysisResult) (levels : List (String × ℕ)) :
    List ℕ → List (String × ℕ) → List (String × ℕ)
  | [], fp => fp
  | l :: ls, fp => buildPosAux data levels ls (fp ++ levelBlock data levels fp l)

/-- `finalPositions` after all levels `0 .. maxLevel` are processed. -/
def buildPositions (data : AnalysisResult) (levels : List (String × ℕ))
    (maxLevel : ℕ) : List (String × ℕ) :=
  buildPosAux data levels (List.range (maxLevel + 1)) []

/-- The constants that differ between the two `calculateInitialLayout`
variants. -/
structure LayoutConfig where
  nodeWidth : ℚ
  nodeHeight : ℚ
  gapX : ℚ
  gapY : ℚ
  topMargin : ℚ
  leftPad : ℚ
  widthPad : ℚ
  heightPad : ℚ
deriving DecidableEq, Repr

/-- `Whiteboard.tsx` constants: 240×460 cards, gaps 100/120, `y = … + 80`,
`x = … + 100`, canvas `width = maxRowWidth + 400`,
`height = (maxLevel+1)*(h+gapY) + 300`. -/
def layoutConfigV1 : LayoutConfig := ⟨240, 460, 100, 120, 80, 100, 400, 300⟩

/-- Second whiteboard variant constants: 1024×800 cards, gaps 100/150,
`y = … + 100`, `x = … + 100`, `width = maxRowWidth + 600`,
`height = (maxLevel+1)*(h+gapY) + 400`. -/
def layoutConfigV2 : LayoutConfig := ⟨1024, 800, 100, 150, 100, 100, 600, 400⟩

/-- Result of `calculateInitialLayout`. -/
structure LayoutResult where
  nodes : List LayoutNode
  width : ℚ
  height : ℚ
deriving DecidableEq, Repr

/-- `count * (nodeWidth + gapX) - gapX` for one level. -/
def levelWidth (cfg : LayoutConfig) (levels : List (String × ℕ)) (l : ℕ) : ℚ :=
  ((nodesByLevel levels l).length : ℚ) * (cfg.nodeWidth + cfg.gapX) - cfg.gapX

/-- `Math.max(...Object.values(levelWidths), 0)`. -/
def maxRowWidthOf (cfg : LayoutConfig) (levels : List (String × ℕ))
    (maxLevel : ℕ) : ℚ :=
  ((List.range (maxLevel + 1)).map (levelWidth cfg levels)).foldr max 0

/-- The `data.screens.map(screen => …)` body of `calculateInitialLayout`:
`levels[screen.id] || 0`, `finalPositions[screen.id] || 0`, then the
`(x, y)` placement with per-row centering. -/
def buildNode (cfg : LayoutConfig) (levels fp : List (String × ℕ))
    (maxRowWidth : ℚ) (screen : ScreenNode) : LayoutNode :=
  let level := (lookupId screen.id levels).getD 0
  let order := (lookupId screen.id fp).getD 0
  let y := (level : ℚ) * (cfg.nodeHeight + cfg.gapY) + cfg.topMargin
  let currentRowWidth := levelWidth cfg levels level
  let centerOffset := (maxRowWidth - currentRowWidth) / 2
  let x := centerOffset + (order : ℚ) * (cfg.nodeWidth + cfg.gapX) + cfg.leftPad
  LayoutNode.mk screen.id screen.label screen.description screen.frameIndex
    x y level order

/-- `calculateInitialLayout` (both whiteboard variants; pass the matching
`LayoutConfig`). -/
def calculateInitialLayout (cfg : LayoutConfig) (data : AnalysisResult) :
    LayoutResult :=
  let levels := assignLevels data
  let maxLevel := maxLevelOf levels
  let fp := buildPositions data levels maxLevel
  let maxRowWidth := maxRowWidthOf cfg levels maxLevel
  ⟨data.screens.map (buildNode cfg levels fp maxRowWidth),
    maxRowWidth + cfg.widthPad,
    ((maxLevel : ℚ) + 1) * (cfg.nodeHeight + cfg.gapY) + cfg.heightPad⟩

/-! ## Basic facts about the signal analyzer -/

theorem pixelDiff_self (p : Pixel) : pixelDiff p p = 0 := by
  simp [pixelDiff, absDiff]

theorem zip_self_eq_map (d : Buffer) : d.zip d = d.map fun x => (x, x) := by
  induction d with
  | nil => rfl
  | cons x xs ih => simp [List.zip_cons_cons, ih]

theorem filter_zip_self (c : ℕ) (d : Buffer) :
    ((d.zip d).filter fun pq => decide (c < pixelDiff pq.1 pq.2)) = [] := by
  rw [zip_self_eq_map, List.filter_map]
  have : ∀ x : Pixel, (fun pq : Pixel × Pixel => decide (c < pixelDiff pq.1 pq.2))
      ((fun x => (x, x)) x) = false := by
    intro x; simp [pixelDiff_self]
  simp only [Function.comp_def]
  rw [List.filter_eq_nil_iff.mpr]
  · simp
  · intro a _; simpa using this a

theorem filter_zip_full {c : ℕ} : ∀ {d1 d2 : Buffer},
    List.Forall₂ (fun p q => c < pixelDiff p q) d1 d2 →
    ((d1.zip d2).filter fun pq => decide (c < pixelDiff pq.1 pq.2)).length = d1.length := by
  intro d1 d2 h
  induction h with
  | nil => rfl
  | cons hpq _ ih => simpa [List.zip_cons_cons, List.filter_cons, hpq] using ih

/-- C8 part: identical buffers give similarity exactly 1 (variant 1). -/
theorem calculateSimilarity_self (d : Buffer) (_hd : d ≠ []) :
    calculateSimilarity d d = 1 := by
  simp [calculateSimilarity, filter_zip_self]

/-- C8 part: buffers differing everywhere beyond the noise floor give
similarity exactly 0 (variant 1). -/
theorem calculateSimilarity_allDiff (d1 d2 : Buffer) (hd : d1 ≠ [])
    (h : List.Forall₂ (fun p q => 20 < pixelDiff p q) d1 d2) :
    calculateSimilarity d1 d2 = 0 := by
  have hlen := h.length_eq
  have hne : (d1.length : ℚ) ≠ 0 := by
    simpa using List.length_pos.mpr hd |>.ne'
  unfold calculateSimilarity
  rw [if_neg (by simp [hlen]), filter_zip_full h]
  show 1 - (d1.length : ℚ) / (d1.length : ℚ) = 0
  rw [div_self hne]; ring

/-- C8 part: identical buffers give structural difference exactly 0
(variant 2). -/
theorem getStructuralDifference_self (d : Buffer) :
    getStructuralDifference d d = 0 := by
  simp [getStructuralDifference, filter_zip_self]

/-- C8 part: buffers differing everywhere beyond the noise floor give
structural difference exactly 1 (variant 2). -/
theorem getStructuralDifference_allDiff (d1 d2 : Buffer) (hd : d1 ≠ [])
    (h : List.Forall₂ (fun p q => 45 < pixelDiff p q) d1 d2) :
    getStructuralDifference d1 d2 = 1 := by
  have hne : (d1.length : ℚ) ≠ 0 := by
    simpa using List.length_pos.mpr hd |>.ne'
  simp only [getStructuralDifference, filter_zip_full h]
  field_simp

/-- Pure white, full alpha. -/
def whitePixel : Pixel := ⟨255, 255, 255, 255⟩

/-- Pure black, full alpha. -/
def blackPixel : Pixel := ⟨0, 0, 0, 255⟩

/-- A buffer of `n` pixels whose colours alternate, starting with `a`:
`[a, b, a, b, …]`. -/
def altList : ℕ → Pixel → Pixel → Buffer
  | 0, _, _ => []
  | n + 1, a, b => a :: altList n b a

theorem altList_length : ∀ (n : ℕ) (a b : Pixel), (altList n a b).length = n
  | 0, _, _ => rfl
  | n + 1, a, b => by simp [altList, altList_length n]

theorem altList_sum (f : Pixel → ℕ) :
    ∀ (n : ℕ) (a b : Pixel),
      ((altList n a b).map fun p => (f p : ℚ)).sum
        = (((n + 1) / 2 : ℕ) : ℚ) * f a + ((n / 2 : ℕ) : ℚ) * f b
  | 0, a, b => by simp [altList]
  | n + 1, a, b => by
    have h2 : (n + 2) / 2 = n / 2 + 1 := by omega
    simp only [altList, List.map_cons, List.sum_cons, altList_sum f n b a]
    rw [show n + 1 + 1 = n + 2 from rfl, h2]
    push_cast
    ring

theorem altList_getD :
    ∀ (n : ℕ) (a b : Pixel) (i : ℕ), i < n →
      (altList n a b).getD i ⟨0, 0, 0, 0⟩ = if i % 2 = 0 then a else b
  | 0, _, _, _, h => absurd h (Nat.not_lt_zero _)
  | n + 1, a, b, 0, _ => by simp [altList]
  | n + 1, a, b, i + 1, h => by
    have hi : i < n := by omega
    have hrec := altList_getD n b a i hi
    have hstep : (altList (n + 1) a b).getD (i + 1) ⟨0, 0, 0, 0⟩
        = (altList n b a).getD i ⟨0, 0, 0, 0⟩ := by
      show (a :: altList n b a).getD (i + 1) ⟨0, 0, 0, 0⟩ = _
      rw [List.getD_cons_succ]
    rw [hstep, hrec]
    rcases Nat.even_or_odd i with he | ho
    · have h1 : i % 2 = 0 := Nat.even_iff.mp he
      have h2 : (i + 1) % 2 = 1 := by omega
      simp [h1, h2]
    · have h1 : i % 2 = 1 := Nat.odd_iff.mp ho
      have h2 : (i + 1) % 2 = 0 := by omega
      simp [h1, h2]

theorem div_bound_core (n m : ℕ) (hn : 2 ≤ n) (hm : n / 2 ≤ m) :
    (10 : ℚ) ≤ 3 * ((m : ℚ) * 255 / (n : ℚ)) := by
  have hnq : (0 : ℚ) < (n : ℚ) := by exact_mod_cast (by omega : 0 < n)
  have key : 10 * n ≤ 765 * m := by omega
  rw [mul_div_assoc', le_div_iff₀ hnq]
  have : (10 : ℚ) * n ≤ 765 * m := by exact_mod_cast key
  linarith

/-- C9 part: a perfectly uniform buffer of any colour is classified as a solid
colour. -/
theorem isSolidColor_replicate (c : Pixel) (n : ℕ) (hn : 0 < n) :
    isSolidColor (List.replicate n c) = true := by
  have hne : (n : ℚ) ≠ 0 := by exact_mod_cast hn.ne'
  have hlt : n / 2 < n := Nat.div_lt_self hn one_lt_two
  have hcent : (List.replicate n c).getD (n / 2) ⟨0, 0, 0, 0⟩ = c := by
    simp [List.getD, List.getElem?_replicate, hlt]
  unfold isSolidColor
  simp only [List.length_replicate, hcent, List.map_replicate, List.sum_replicate,
    nsmul_eq_mul, mul_div_assoc, mul_div_cancel_left₀ _ hne]
  norm_num

/-- C9 part: a buffer whose pixels alternate between pure black and pure white
(either phase, length at least 2) is never classified as a solid colour. -/
theorem isSolidColor_alt (n : ℕ) (hn : 2 ≤ n) (a b : Pixel)
    (hab : (a = whitePixel ∧ b = blackPixel) ∨ (a = blackPixel ∧ b = whitePixel)) :
    isSolidColor (altList n a b) = false := by
  have hpos : 0 < n := by omega
  have hne : (n : ℚ) ≠ 0 := by exact_mod_cast hpos.ne'
  have hpq : (((n + 1) / 2 : ℕ) : ℚ) + ((n / 2 : ℕ) : ℚ) = (n : ℚ) := by
    exact_mod_cast (by omega : (n + 1) / 2 + n / 2 = n)
  have hcoreQ := div_bound_core n (n / 2) hn (le_refl _)
  have hcoreP := div_bound_core n ((n + 1) / 2) hn (by omega)
  unfold isSolidColor
  simp only [altList_length]
  rw [altList_getD n a b (n / 2) (by omega),
    altList_sum (fun p => p.r), altList_sum (fun p => p.g),
    altList_sum (fun p => p.b)]
  set P : ℚ := (((n + 1) / 2 : ℕ) : ℚ) with hP
  set Q : ℚ := ((n / 2 : ℕ) : ℚ) with hQ
  rw [decide_eq_false_iff_not, not_lt]
  rcases hab with ⟨ha, hb⟩ | ⟨ha, hb⟩ <;> subst ha <;> subst hb <;>
    by_cases hpar : n / 2 % 2 = 0
  · -- white/black phase, centre index even: centre is white, average 255·P/n
    rw [if_pos hpar]
    simp only [whitePixel, blackPixel]
    push_cast
    have hform : (255 : ℚ) - (P * 255 + Q * 0) / n = Q * 255 / n := by
      field_simp
      linarith
    rw [hform]
    linarith [le_abs_self (Q * 255 / (n : ℚ))]
  · -- white/black phase, centre index odd: centre is black, average 255·P/n
    rw [if_neg hpar]
    simp only [whitePixel, blackPixel]
    push_cast
    have hform : (0 : ℚ) - (P * 255 + Q * 0) / n = -(P * 255 / n) := by ring
    rw [hform, abs_neg]
    linarith [le_abs_self (P * 255 / (n : ℚ))]
  · -- black/white phase, centre index even: centre is black, average 255·Q/n
    rw [if_pos hpar]
    simp only [whitePixel, blackPixel]
    push_cast
    have hform : (0 : ℚ) - (P * 0 + Q * 255) / n = -(Q * 255 / n) := by ring
    rw [hform, abs_neg]
    linarith [le_abs_self (Q * 255 / (n : ℚ))]
  · -- black/white phase, centre index odd: centre is white, average 255·Q/n
    rw [if_neg hpar]
    simp only [whitePixel, blackPixel]
    push_cast
    have hform : (255 : ℚ) - (P * 0 + Q * 255) / n = P * 255 / n := by
      field_simp
      linarith
    rw [hform]
    linarith [le_abs_self (P * 255 / (n : ℚ))]

/-! ## Claim theorems: C8, C9, C6 -/

/-- C8: for every pair of equal-length pixel buffers, identical buffers give
similarity exactly 1.0 (variant 1) and structural difference exactly 0.0
(variant 2); buffers whose every pixel differs beyond the per-pixel noise
floor (20 summed RGB in variant 1, 45 in variant 2) give similarity exactly
0.0 and structural difference exactly 1.0.  Nonemptiness matches the
real call sites (fixed 320×320 resp. 64×64 buffers). -/
theorem claim_C8 :
    (∀ d : Buffer, d ≠ [] → calculateSimilarity d d = 1)
    ∧ (∀ d1 d2 : Buffer, d1 ≠ [] →
        List.Forall₂ (fun p q => 20 < pixelDiff p q) d1 d2 →
        calculateSimilarity d1 d2 = 0)
    ∧ (∀ d : Buffer, d ≠ [] → getStructuralDifference d d = 0)
    ∧ (∀ d1 d2 : Buffer, d1 ≠ [] →
        List.Forall₂ (fun p q => 45 < pixelDiff p q) d1 d2 →
        getStructuralDifference d1 d2 = 1) :=
  ⟨calculateSimilarity_self, calculateSimilarity_allDiff,
   fun d _ => getStructuralDifference_self d, getStructuralDifference_allDiff⟩

/-- Witness for `claim_C8` at concrete two-pixel buffers. -/
theorem claim_C8_witness :
    calculateSimilarity [whitePixel, whitePixel] [whitePixel, whitePixel] = 1
    ∧ calculateSimilarity [whitePixel, whitePixel] [blackPixel, blackPixel] = 0
    ∧ getStructuralDifference [whitePixel, whitePixel] [whitePixel, whitePixel] = 0
    ∧ getStructuralDifference [whitePixel, whitePixel] [blackPixel, blackPixel] = 1 :=
  ⟨claim_C8.1 _ (by decide),
   claim_C8.2.1 _ _ (by decide) (.cons (by decide) (.cons (by decide) .nil)),
   claim_C8.2.2.1 _ (by decide),
   claim_C8.2.2.2 _ _ (by decide) (.cons (by decide) (.cons (by decide) .nil))⟩

/-- C9: the low-complexity classifier `isSolidColor` returns `true` on every
nonempty perfectly uniform single-colour buffer, for every colour, and
`false` on every buffer (length ≥ 2) whose pixels alternate between pure
black and pure white, in either phase. -/
theorem claim_C9 :
    (∀ (c : Pixel) (n : ℕ), 0 < n → isSolidColor (List.replicate n c) = true)
    ∧ (∀ (n : ℕ) (a b : Pixel), 2 ≤ n →
        ((a = whitePixel ∧ b = blackPixel) ∨ (a = blackPixel ∧ b = whitePixel)) →
        isSolidColor (altList n a b) = false) :=
  ⟨isSolidColor_replicate, fun n a b hn hab => isSolidColor_alt n hn a b hab⟩

/-- Witness for `claim_C9` at concrete buffers. -/
theorem claim_C9_witness :
    isSolidColor (List.replicate 4 ⟨17, 99, 3, 255⟩) = true
    ∧ isSolidColor (altList 4 whitePixel blackPixel) = false
    ∧ isSolidColor (altList 5 blackPixel whitePixel) = false :=
  ⟨claim_C9.1 _ 4 (by decide),
   claim_C9.2 4 _ _ (by decide) (Or.inl ⟨rfl, rfl⟩),
   claim_C9.2 5 _ _ (by decide) (Or.inr ⟨rfl, rfl⟩)⟩

/-- A concrete video: every frame is the same black 4-pixel buffer. -/
def demoVideo : ℚ → Buffer := fun _ => List.replicate 4 blackPixel

unseal Rat.mul Rat.inv Rat.add Rat.sub in
/-- C6 evidence (code bug): with a non-positive duration neither extraction
variant fails — variant 1 builds no checkpoints and resolves successfully with
the empty frame list, and variant 2 resolves with one frame at `t = 0` when
`duration = 0`.  No `InvalidMedia`-style rejection exists anywhere in
`extractFramesFromVideo` (the only rejection path is the element `error`
event for an unloadable file). -/
theorem claim_C6_no_invalidMedia_check :
    checkPoints1 0 (1/2) = []
    ∧ extractFramesFromVideo1 demoVideo 0 (1/2) 80 = []
    ∧ extractFramesFromVideo1 demoVideo (-5) (1/2) 80 = []
    ∧ (extractFramesFromVideo2 demoVideo 0 (3/10) 50).length = 1 := by
  refine ⟨?_, ?_, ?_, ?_⟩ <;> decide

/-! ## Extraction loop lemmas (C1, C2, C3) -/

theorem extractLoop1_cons (v : ℚ → Buffer) (m : ℕ) (t : ℚ) (rest : List ℚ)
    (frames : List Frame) (lb : Option Buffer) :
    extractLoop1 v m (t :: rest) frames lb =
      if m ≤ frames.length then (frames, lb)
      else if isDifferent1 lb (v t) frames.isEmpty rest.isEmpty then
        extractLoop1 v m rest (frames ++ [⟨t, v t⟩]) (some (v t))
      else extractLoop1 v m rest frames lb := rfl

theorem extractLoop2_cons (v : ℚ → Buffer) (m : ℕ) (t : ℚ) (rest : List ℚ)
    (frames : List Frame) (prev : Option Buffer) :
    extractLoop2 v m (t :: rest) frames prev =
      if m ≤ frames.length then (frames, prev)
      else if shouldKeep2 (v t) prev then
        extractLoop2 v m rest (frames ++ [⟨t, v t⟩]) (some (v t))
      else extractLoop2 v m rest frames prev := rfl

theorem isDifferent1_none (cur : Buffer) (fe il : Bool) :
    isDifferent1 none cur fe il = true := by
  cases fe <;> cases il <;> rfl

theorem isDifferent1_some_last (lb cur : Buffer) (fe : Bool) :
    isDifferent1 (some lb) cur fe true
      = !(decide ((998 : ℚ)/1000 < calculateSimilarity lb cur)) := by
  cases fe <;> rfl

theorem extractLoop1_append (v : ℚ → Buffer) (m : ℕ) :
    ∀ (cps : List ℚ) (frames : List Frame) (lb : Option Buffer),
      ∃ tl, (extractLoop1 v m cps frames lb).1 = frames ++ tl
  | [], frames, lb => ⟨[], by simp [extractLoop1]⟩
  | t :: rest, frames, lb => by
    rw [extractLoop1_cons]
    split
    · exact ⟨[], by simp⟩
    · split
      · obtain ⟨tl, htl⟩ := extractLoop1_append v m rest (frames ++ [⟨t, v t⟩]) (some (v t))
        exact ⟨⟨t, v t⟩ :: tl, by simpa using htl⟩
      · exact extractLoop1_append v m rest frames lb

theorem extractLoop2_append (v : ℚ → Buffer) (m : ℕ) :
    ∀ (cps : List ℚ) (frames : List Frame) (prev : Option Buffer),
      ∃ tl, (extractLoop2 v m cps frames prev).1 = frames ++ tl
  | [], frames, prev => ⟨[], by simp [extractLoop2]⟩
  | t :: rest, frames, prev => by
    rw [extractLoop2_cons]
    split
    · exact ⟨[], by simp⟩
    · split
      · obtain ⟨tl, htl⟩ := extractLoop2_append v m rest (frames ++ [⟨t, v t⟩]) (some (v t))
        exact ⟨⟨t, v t⟩ :: tl, by simpa using htl⟩
      · exact extractLoop2_append v m rest frames prev

/-- The baseline buffer always is the buffer of the most recently kept frame
(variant 1). -/
theorem extractLoop1_baseline (v : ℚ → Buffer) (m : ℕ) :
    ∀ (cps : List ℚ) (frames : List Frame) (lb : Option Buffer),
      lb = frames.getLast?.map Frame.buf →
      (extractLoop1 v m cps frames lb).2
        = ((extractLoop1 v m cps frames lb).1).getLast?.map Frame.buf
  | [], frames, lb, h => by simpa [extractLoop1] using h
  | t :: rest, frames, lb, h => by
    rw [extractLoop1_cons]
    split
    · simpa using h
    · split
      · exact extractLoop1_baseline v m rest _ _ (by simp [List.getLast?_concat])
      · exact extractLoop1_baseline v m rest _ _ h

/-- The baseline buffer always is the buffer of the most recently kept frame
(variant 2). -/
theorem extractLoop2_baseline (v : ℚ → Buffer) (m : ℕ) :
    ∀ (cps : List ℚ) (frames : List Frame) (prev : Option Buffer),
      prev = frames.getLast?.map Frame.buf →
      (extractLoop2 v m cps frames prev).2
        = ((extractLoop2 v m cps frames prev).1).getLast?.map Frame.buf
  | [], frames, prev, h => by simpa [extractLoop2] using h
  | t :: rest, frames, prev, h => by
    rw [extractLoop2_cons]
    split
    · simpa using h
    · split
      · exact extractLoop2_baseline v m rest _ _ (by simp [List.getLast?_concat])
      · exact extractLoop2_baseline v m rest _ _ h

theorem getLastD_of_ne_nil {l : List ℚ} (h : l ≠ []) (d1 d2 : ℚ) :
    l.getLastD d1 = l.getLastD d2 := by
  cases l with
  | nil => exact absurd rfl h
  | cons a as => rw [List.getLastD_cons, List.getLastD_cons]

/-- Variant 1 keeps the frame of the final checkpoint — provided the
`maxFrames` cap did not end the run early — unless that frame is more than
99.8 % similar to the most recently captured frame's buffer. -/
theorem extractLoop1_last (v : ℚ → Buffer) (m : ℕ) :
    ∀ (cps : List ℚ), cps ≠ [] → ∀ (frames : List Frame) (lb : Option Buffer),
      lb = frames.getLast?.map Frame.buf →
      (extractLoop1 v m cps frames lb).1.length < m →
      (extractLoop1 v m cps frames lb).1 ≠ []
      ∧ (((extractLoop1 v m cps frames lb).1.getLastD ⟨0, []⟩).time = cps.getLastD 0
        ∨ (998 : ℚ)/1000 < calculateSimilarity
            (((extractLoop1 v m cps frames lb).1.getLastD ⟨0, []⟩).buf)
            (v (cps.getLastD 0)))
  | [], hne, _, _, _, _ => absurd rfl hne
  | [t], _, frames, lb, hinv, hlen => by
    rw [extractLoop1_cons] at hlen ⊢
    by_cases hcap : m ≤ frames.length
    · rw [if_pos hcap] at hlen
      simp at hlen
      omega
    · rw [if_neg hcap] at hlen ⊢
      simp only [List.isEmpty_nil] at hlen ⊢
      cases lb with
      | none =>
        rw [if_pos (by simp [isDifferent1_none])] at hlen ⊢
        simp [extractLoop1, List.getLastD_eq_getLast?, List.getLast?_concat,
          List.getLastD_cons, List.getLastD_nil]
      | some lb0 =>
        obtain ⟨f, hf, hbuf⟩ : ∃ f, frames.getLast? = some f ∧ f.buf = lb0 := by
          cases hfx : frames.getLast? with
          | none => rw [hfx] at hinv; simp at hinv
          | some f => rw [hfx] at hinv; exact ⟨f, rfl, by simpa using hinv.symm⟩
        have hfne : frames ≠ [] := by
          intro h0; rw [h0] at hf; simp at hf
        have hgl : frames.getLastD ⟨0, []⟩ = f := by
          simp [List.getLastD_eq_getLast?, hf]
        simp only [isDifferent1_some_last] at hlen ⊢
        by_cases hsim : (998 : ℚ)/1000 < calculateSimilarity lb0 (v t)
        · rw [if_neg (by simp [hsim])] at hlen ⊢
          refine ⟨by simpa [extractLoop1] using hfne, Or.inr ?_⟩
          simp only [extractLoop1, List.getLastD_cons, List.getLastD_nil]
          rw [hgl, hbuf]
          exact hsim
        · rw [if_pos (by simp [hsim])] at hlen ⊢
          simp [extractLoop1, List.getLastD_eq_getLast?, List.getLast?_concat,
            List.getLastD_cons, List.getLastD_nil]
  | t :: u :: rest, _, frames, lb, hinv, hlen => by
    rw [extractLoop1_cons] at hlen ⊢
    by_cases hcap : m ≤ frames.length
    · rw [if_pos hcap] at hlen
      simp at hlen
      omega
    · rw [if_neg hcap] at hlen ⊢
      have hres : (u :: rest : List ℚ) ≠ [] := by simp
      have hlast : (t :: u :: rest : List ℚ).getLastD 0 = (u :: rest : List ℚ).getLastD 0 := by
        rw [List.getLastD_cons]
        exact getLastD_of_ne_nil hres u 0
      rw [hlast]
      split at hlen
      · rw [if_pos (by assumption)]
        exact extractLoop1_last v m (u :: rest) hres _ _ (by simp [List.getLast?_concat]) hlen
      · rw [if_neg (by assumption)]
        exact extractLoop1_last v m (u :: rest) hres _ _ hinv hlen

/-! ## Checkpoint schedules are strictly increasing -/

theorem base1_mem_lt (d s : ℚ) (hs : 0 < s) :
    ∀ x ∈ (List.range (⌈d / s⌉.toNat)).map (fun (k : ℕ) => (k : ℚ) * s), x < d := by
  intro x hx
  obtain ⟨k, hk, rfl⟩ := List.mem_map.mp hx
  rw [List.mem_range] at hk
  have h2 : ((k : ℤ) : ℚ) < d / s := Int.lt_ceil.mp (Int.lt_toNat.mp hk)
  have h3 : (k : ℚ) < d / s := by exact_mod_cast h2
  calc (k : ℚ) * s < (d / s) * s := mul_lt_mul_of_pos_right h3 hs
  _ = d := div_mul_cancel₀ d hs.ne'

theorem base1_pairwise (d s : ℚ) (hs : 0 < s) :
    ((List.range (⌈d / s⌉.toNat)).map (fun (k : ℕ) => (k : ℚ) * s)).Pairwise (· < ·) := by
  refine List.Pairwise.map _ (fun a b hab => ?_) (List.pairwise_lt_range _)
  exact mul_lt_mul_of_pos_right (by exact_mod_cast hab) hs

theorem checkPoints1_def (d s : ℚ) :
    checkPoints1 d s =
      if 1/10 < d - ((List.range (⌈d / s⌉.toNat)).map fun (k : ℕ) => (k : ℚ) * s).getLastD 0
      then ((List.range (⌈d / s⌉.toNat)).map fun (k : ℕ) => (k : ℚ) * s) ++ [d]
      else if 0 < ((List.range (⌈d / s⌉.toNat)).map fun (k : ℕ) => (k : ℚ) * s).length
      then ((List.range (⌈d / s⌉.toNat)).map fun (k : ℕ) => (k : ℚ) * s).dropLast ++ [d]
      else (List.range (⌈d / s⌉.toNat)).map fun (k : ℕ) => (k : ℚ) * s := rfl

theorem checkPoints1_sorted (d s : ℚ) (hs : 0 < s) :
    (checkPoints1 d s).Pairwise (· < ·) := by
  rw [checkPoints1_def]
  split
  · rw [List.pairwise_append]
    refine ⟨base1_pairwise d s hs, by simp, ?_⟩
    intro a ha b hb
    simp only [List.mem_singleton] at hb
    subst hb
    exact base1_mem_lt _ s hs a ha
  · split
    · rw [List.pairwise_append]
      refine ⟨(base1_pairwise d s hs).sublist (List.dropLast_sublist _), by simp, ?_⟩
      intro a ha b hb
      simp only [List.mem_singleton] at hb
      subst hb
      exact base1_mem_lt _ s hs a ((List.dropLast_sublist _).mem ha)
    · exact base1_pairwise d s hs

theorem checkPoints2_sorted (d s : ℚ) (hs : 0 < s) :
    (checkPoints2 d s).Pairwise (· < ·) := by
  unfold checkPoints2
  split
  · exact List.Pairwise.nil
  · refine List.Pairwise.map _ (fun a b hab => ?_) (List.pairwise_lt_range _)
    exact mul_lt_mul_of_pos_right (by exact_mod_cast hab) hs

theorem extractLoop1_pairwise (v : ℚ → Buffer) (m : ℕ) :
    ∀ (cps : List ℚ) (frames : List Frame) (lb : Option Buffer),
      cps.Pairwise (· < ·) →
      frames.Pairwise (fun f g => f.time < g.time) →
      (∀ f ∈ frames, ∀ t ∈ cps, f.time < t) →
      ((extractLoop1 v m cps frames lb).1).Pairwise (fun f g => f.time < g.time)
  | [], frames, lb, _, hf, _ => by simpa [extractLoop1] using hf
  | t :: rest, frames, lb, hcps, hf, hcross => by
    rw [extractLoop1_cons]
    have htrest := (List.pairwise_cons.mp hcps).1
    have hcps' := (List.pairwise_cons.mp hcps).2
    split
    · exact hf
    · split
      · refine extractLoop1_pairwise v m rest _ _ hcps' ?_ ?_
        · rw [List.pairwise_append]
          refine ⟨hf, by simp, ?_⟩
          intro a ha b hb
          simp only [List.mem_singleton] at hb
          subst hb
          exact hcross a ha t (by simp)
        · intro f hfm u hu
          rcases List.mem_append.mp hfm with h | h
          · exact hcross f h u (by simp [hu])
          · simp only [List.mem_singleton] at h
            subst h
            exact htrest u hu
      · exact extractLoop1_pairwise v m rest _ _ hcps' hf
          (fun f hfm u hu => hcross f hfm u (by simp [hu]))

theorem extractLoop2_pairwise (v : ℚ → Buffer) (m : ℕ) :
    ∀ (cps : List ℚ) (frames : List Frame) (prev : Option Buffer),
      cps.Pairwise (· < ·) →
      frames.Pairwise (fun f g => f.time < g.time) →
      (∀ f ∈ frames, ∀ t ∈ cps, f.time < t) →
      ((extractLoop2 v m cps frames prev).1).Pairwise (fun f g => f.time < g.time)
  | [], frames, prev, _, hf, _ => by simpa [extractLoop2] using hf
  | t :: rest, frames, prev, hcps, hf, hcross => by
    rw [extractLoop2_cons]
    have htrest := (List.pairwise_cons.mp hcps).1
    have hcps' := (List.pairwise_cons.mp hcps).2
    split
    · exact hf
    · split
      · refine extractLoop2_pairwise v m rest _ _ hcps' ?_ ?_
        · rw [List.pairwise_append]
          refine ⟨hf, by simp, ?_⟩
          intro a ha b hb
          simp only [List.mem_singleton] at hb
          subst hb
          exact hcross a ha t (by simp)
        · intro f hfm u hu
          rcases List.mem_append.mp hfm with h | h
          · exact hcross f h u (by simp [hu])
          · simp only [List.mem_singleton] at h
            subst h
            exact htrest u hu
      · exact extractLoop2_pairwise v m rest _ _ hcps' hf
          (fun f hfm u hu => hcross f hfm u (by simp [hu]))

/-- C3: for every extraction run of either pipeline variant, the captured
frame sequence is strictly increasing in time: adjacent frames satisfy
`frames[i].time < frames[i+1].time`. -/
theorem claim_C3 (video : ℚ → Buffer) (d s : ℚ) (m : ℕ) (hs : 0 < s) :
    ((extractFramesFromVideo1 video d s m).map Frame.time).Chain' (· < ·)
    ∧ ((extractFramesFromVideo2 video d s m).map Frame.time).Chain' (· < ·) := by
  constructor
  · have hp := extractLoop1_pairwise video m (checkPoints1 d s) [] none
      (checkPoints1_sorted d s hs) List.Pairwise.nil (by simp)
    exact (List.Pairwise.map Frame.time (fun a b hab => hab) hp).chain'
  · have hp := extractLoop2_pairwise video m (checkPoints2 d s) [] none
      (checkPoints2_sorted d s hs) List.Pairwise.nil (by simp)
    exact (List.Pairwise.map Frame.time (fun a b hab => hab) hp).chain'

/-- Witness for `claim_C3` at a concrete run. -/
theorem claim_C3_witness :
    ((extractFramesFromVideo1 demoVideo 1 (1/2) 80).map Frame.time).Chain' (· < ·)
    ∧ ((extractFramesFromVideo2 demoVideo 1 (3/10) 50).map Frame.time).Chain' (· < ·) :=
  ⟨(claim_C3 demoVideo 1 (1/2) 80 (by norm_num)).1,
   (claim_C3 demoVideo 1 (3/10) 50 (by norm_num)).2⟩

/-! ## First/last checkpoint guarantees (C1) -/

theorem extractLoop1_first (v : ℚ → Buffer) (m : ℕ) (t : ℚ) (rest : List ℚ)
    (hm : 1 ≤ m) :
    ∃ tl, (extractLoop1 v m (t :: rest) [] none).1 = ⟨t, v t⟩ :: tl := by
  rw [extractLoop1_cons]
  rw [if_neg (by simp; omega)]
  rw [if_pos (by simp [isDifferent1_none])]
  obtain ⟨tl, htl⟩ := extractLoop1_append v m rest [⟨t, v t⟩] (some (v t))
  exact ⟨tl, by simpa using htl⟩

theorem extractLoop2_first (v : ℚ → Buffer) (m : ℕ) (t : ℚ) (rest : List ℚ)
    (hm : 1 ≤ m) :
    ∃ tl, (extractLoop2 v m (t :: rest) [] none).1 = ⟨t, v t⟩ :: tl := by
  rw [extractLoop2_cons]
  rw [if_neg (by simp; omega)]
  rw [if_pos (by rfl)]
  obtain ⟨tl, htl⟩ := extractLoop2_append v m rest [⟨t, v t⟩] (some (v t))
  exact ⟨tl, by simpa using htl⟩

theorem checkPoints1_ne_nil (d s : ℚ) (hd : 0 < d) (hs : 0 < s) :
    checkPoints1 d s ≠ [] := by
  have hbase : ((List.range (⌈d / s⌉.toNat)).map fun (k : ℕ) => (k : ℚ) * s) ≠ [] := by
    have hpos : 0 < ⌈d / s⌉ := Int.ceil_pos.mpr (div_pos hd hs)
    have htn : 0 < ⌈d / s⌉.toNat := Int.lt_toNat.mpr (by exact_mod_cast hpos)
    intro hnil
    rw [List.map_eq_nil_iff, List.range_eq_nil] at hnil
    omega
  rw [checkPoints1_def]
  split
  · simp
  · split
    · simp
    · exact hbase

theorem checkPoints2_cons (d s : ℚ) (hd : 0 ≤ d) :
    checkPoints2 d s
      = 0 :: ((List.range (⌊d / s⌋.toNat)).map Nat.succ).map
          (fun (k : ℕ) => (k : ℚ) * s) := by
  unfold checkPoints2
  rw [if_neg (not_lt.mpr hd), List.range_succ_eq_map, List.map_cons]
  simp

/-- C1, amended.  Both variants always keep the frame of the first checkpoint
(even a boring or duplicate one — no baseline exists yet).  In variant 1, as
long as the `maxFrames` cap has not ended the run, the final output frame is
the last checkpoint's frame unless that checkpoint is more than 99.8 % similar
to the most recently captured frame's buffer.  Variant 2 gives the final
checkpoint no special treatment (see `claim_C1_counterexample`): only the
first-frame half of the original claim holds there. -/
theorem claim_C1 :
    (∀ (video : ℚ → Buffer) (d s : ℚ) (m : ℕ), 0 < d → 0 < s → 1 ≤ m →
      ∃ c rest tl, checkPoints1 d s = c :: rest
        ∧ extractFramesFromVideo1 video d s m = ⟨c, video c⟩ :: tl)
    ∧ (∀ (video : ℚ → Buffer) (d s : ℚ) (m : ℕ), 0 < d → 0 < s →
        (extractFramesFromVideo1 video d s m).length < m →
        extractFramesFromVideo1 video d s m ≠ []
        ∧ (((extractFramesFromVideo1 video d s m).getLastD ⟨0, []⟩).time
              = (checkPoints1 d s).getLastD 0
          ∨ (998 : ℚ)/1000 < calculateSimilarity
              (((extractFramesFromVideo1 video d s m).getLastD ⟨0, []⟩).buf)
              (video ((checkPoints1 d s).getLastD 0))))
    ∧ (∀ (video : ℚ → Buffer) (d s : ℚ) (m : ℕ), 0 ≤ d → 1 ≤ m →
        ∃ tl, extractFramesFromVideo2 video d s m = ⟨0, video 0⟩ :: tl) := by
  refine ⟨?_, ?_, ?_⟩
  · intro video d s m hd hs hm
    obtain ⟨c, rest, hcr⟩ := List.exists_cons_of_ne_nil (checkPoints1_ne_nil d s hd hs)
    obtain ⟨tl, htl⟩ := extractLoop1_first video m c rest hm
    refine ⟨c, rest, tl, hcr, ?_⟩
    rw [extractFramesFromVideo1, hcr, htl]
  · intro video d s m hd hs hlen
    exact extractLoop1_last video m (checkPoints1 d s)
      (checkPoints1_ne_nil d s hd hs) [] none (by simp) hlen
  · intro video d s m hd hm
    obtain ⟨tl, htl⟩ := extractLoop2_first video m 0
      (((List.range (⌊d / s⌋.toNat)).map Nat.succ).map fun (k : ℕ) => (k : ℚ) * s) hm
    refine ⟨tl, ?_⟩
    rw [extractFramesFromVideo2, checkPoints2_cons d s hd, htl]

/-- Witness for `claim_C1` at a concrete run. -/
theorem claim_C1_witness :
    (∃ c rest tl, checkPoints1 1 (1/2) = c :: rest
      ∧ extractFramesFromVideo1 demoVideo 1 (1/2) 80 = ⟨c, demoVideo c⟩ :: tl)
    ∧ ((extractFramesFromVideo1 demoVideo 1 (1/2) 80).length < 80 →
        extractFramesFromVideo1 demoVideo 1 (1/2) 80 ≠ []
        ∧ (((extractFramesFromVideo1 demoVideo 1 (1/2) 80).getLastD ⟨0, []⟩).time
              = (checkPoints1 1 (1/2)).getLastD 0
          ∨ (998 : ℚ)/1000 < calculateSimilarity
              (((extractFramesFromVideo1 demoVideo 1 (1/2) 80).getLastD ⟨0, []⟩).buf)
              (demoVideo ((checkPoints1 1 (1/2)).getLastD 0))))
    ∧ (∃ tl, extractFramesFromVideo2 demoVideo 1 (3/10) 50 = ⟨0, demoVideo 0⟩ :: tl) :=
  ⟨claim_C1.1 demoVideo 1 (1/2) 80 (by norm_num) (by norm_num) (by norm_num),
   fun h => claim_C1.2.1 demoVideo 1 (1/2) 80 (by norm_num) (by norm_num) h,
   claim_C1.2.2 demoVideo 1 (3/10) 50 (by norm_num) (by norm_num)⟩

/-- The 64-pixel buffers of the counterexample video: at `t = 0` an all-black
buffer, afterwards the same buffer with exactly one white pixel. -/
def bufA : Buffer := List.replicate 64 blackPixel

/-- See `bufA`. -/
def bufB : Buffer := whitePixel :: List.replicate 63 blackPixel

/-- See `bufA`. -/
def videoCX : ℚ → Buffer := fun t => if t = 0 then bufA else bufB

unseal Rat.mul Rat.inv Rat.add Rat.sub in
/-- C1 counterexample: in the variant-2 pipeline the last checkpoint receives
no forced capture.  For a 0.3 s video sampled at 0.3 s there are exactly two
checkpoints, 0 and 0.3; the frame at 0.3 differs from the only captured frame
in 1 of 64 pixels (similarity 63/64 ≈ 98.4 %, well below the 99.8 %
near-duplicate suppression bound the claim allows), yet the output contains
only the first frame — the last checkpoint is absent. -/
theorem claim_C1_counterexample :
    checkPoints2 (3/10) (3/10) = [0, 3/10]
    ∧ (extractFramesFromVideo2 videoCX (3/10) (3/10) 50).map Frame.time = [0]
    ∧ 1 - getStructuralDifference (videoCX (3/10)) (videoCX 0) < 998/1000 := by
  refine ⟨?_, ?_, ?_⟩ <;> decide

/-! ## The variant-2 keep policy (C2) -/

theorem getStructuralDifference_eq (cur p : Buffer) :
    getStructuralDifference cur p
      = ((((cur.zip p).filter fun pq => decide (45 < pixelDiff pq.1 pq.2))).length : ℚ)
        / (cur.length : ℚ) := rfl

/-- At the real buffer size (64×64 = 4096 pixels) the structural difference
can never be exactly 2 %, so the strict `> 0.02` test of the code and the
claim's "similarity does not exceed the 0.98 threshold" agree. -/
theorem structuralDifference_ne_twoPercent (cur p : Buffer)
    (hc : cur.length = 4096) :
    getStructuralDifference cur p ≠ 2/100 := by
  rw [getStructuralDifference_eq, hc]
  intro h
  set c := (((cur.zip p).filter fun pq => decide (45 < pixelDiff pq.1 pq.2))).length
  have hq : (c : ℚ) * 100 = 2 * 4096 := by
    field_simp at h
    linarith
  have : c * 100 = 2 * 4096 := by exact_mod_cast hq
  omega

/-- C2: for every checkpoint processed with an existing baseline (i.e. any
checkpoint after the first kept frame), variant 2 keeps the frame iff it is
not classified low-complexity and its similarity (`1 − structural
difference`) to the baseline does not exceed the tuned duplicate threshold
0.98; and throughout the loop the baseline is exactly the buffer of the most
recently *kept* frame, updated whenever a frame is kept. -/
theorem claim_C2 :
    (∀ (cur p : Buffer), cur.length = 4096 →
      (shouldKeep2 cur (some p) = true ↔
        (isSolidColor cur = false
          ∧ 1 - getStructuralDifference cur p ≤ 98/100)))
    ∧ (∀ (video : ℚ → Buffer) (m : ℕ) (cps : List ℚ) (frames : List Frame)
        (prev : Option Buffer), prev = frames.getLast?.map Frame.buf →
        (extractLoop2 video m cps frames prev).2
          = ((extractLoop2 video m cps frames prev).1).getLast?.map Frame.buf) := by
  constructor
  · intro cur p hc
    have hne := structuralDifference_ne_twoPercent cur p hc
    show (decide ((2 : ℚ)/100 < getStructuralDifference cur p)
        && !(isSolidColor cur)) = true ↔ _
    rw [Bool.and_eq_true, decide_eq_true_eq, Bool.not_eq_true']
    constructor
    · rintro ⟨hgt, hsol⟩
      exact ⟨hsol, by linarith⟩
    · rintro ⟨hsol, hle⟩
      refine ⟨lt_of_le_of_ne (by linarith) (Ne.symm hne), hsol⟩
  · exact extractLoop2_baseline

/-- Witness for `claim_C2` at concrete 4096-pixel buffers and a concrete
loop state. -/
theorem claim_C2_witness :
    (shouldKeep2 (List.replicate 4096 whitePixel) (some (List.replicate 4096 blackPixel)) = true
      ↔ (isSolidColor (List.replicate 4096 whitePixel) = false
        ∧ 1 - getStructuralDifference (List.replicate 4096 whitePixel)
            (List.replicate 4096 blackPixel) ≤ 98/100))
    ∧ (extractLoop2 demoVideo 50 [0] [] none).2
        = ((extractLoop2 demoVideo 50 [0] [] none).1).getLast?.map Frame.buf :=
  ⟨claim_C2.1 _ _ (List.length_replicate 4096 whitePixel),
   claim_C2.2 demoVideo 50 [0] [] none (by simp)⟩

/-! ## Association list and index-block lemmas -/

theorem lookupId_append_some {x : String} {v : ℕ} :
    ∀ {a : List (String × ℕ)} (b : List (String × ℕ)),
      lookupId x a = some v → lookupId x (a ++ b) = some v
  | [], _, h => by simp [lookupId] at h
  | (k, w) :: rest, b, h => by
    by_cases hk : k = x
    · simp only [lookupId, if_pos hk] at h ⊢
      exact h
    · simp only [lookupId, if_neg hk] at h ⊢
      exact lookupId_append_some b h

theorem lookupId_append_none {x : String} :
    ∀ {a : List (String × ℕ)} (b : List (String × ℕ)),
      lookupId x a = none → lookupId x (a ++ b) = lookupId x b
  | [], _, _ => rfl
  | (k, w) :: rest, b, h => by
    by_cases hk : k = x
    · simp [lookupId, if_pos hk] at h
    · simp only [lookupId, if_neg hk, List.cons_append] at h ⊢
      exact lookupId_append_none b h

theorem lookupId_mem {x : String} {v : ℕ} :
    ∀ {l : List (String × ℕ)}, lookupId x l = some v → (x, v) ∈ l
  | [], h => by simp [lookupId] at h
  | (k, w) :: rest, h => by
    by_cases hk : k = x
    · simp only [lookupId, if_pos hk] at h
      subst hk
      obtain rfl : w = v := by simpa using h
      exact List.mem_cons_self _ _
    · simp only [lookupId, if_neg hk] at h
      exact List.mem_cons_of_mem _ (lookupId_mem h)

theorem lookupId_none_iff {x : String} :
    ∀ {l : List (String × ℕ)}, lookupId x l = none ↔ x ∉ l.map Prod.fst
  | [] => by simp [lookupId]
  | (k, w) :: rest => by
    by_cases hk : k = x
    · subst hk
      simp [lookupId]
    · simp [lookupId, if_neg hk, lookupId_none_iff (l := rest), Ne.symm hk]

theorem lookupId_isSome_iff {x : String} {l : List (String × ℕ)} :
    (lookupId x l).isSome ↔ x ∈ l.map Prod.fst := by
  cases h : lookupId x l with
  | none =>
    simp only [Option.isSome_none, Bool.false_eq_true, false_iff]
    exact lookupId_none_iff.mp h
  | some v =>
    simp only [Option.isSome_some, true_iff]
    exact List.mem_map_of_mem Prod.fst (lookupId_mem h)

theorem lookupId_of_mem_nodup {x : String} {v : ℕ} :
    ∀ {l : List (String × ℕ)}, (l.map Prod.fst).Nodup → (x, v) ∈ l →
      lookupId x l = some v
  | [], _, h => by simp at h
  | (k, w) :: rest, hnd, h => by
    have hnd2 : (k :: rest.map Prod.fst).Nodup := by simpa using hnd
    rcases List.mem_cons.mp h with heq | hrest
    · obtain ⟨hx, hv⟩ := Prod.ext_iff.mp heq
      simp only at hx hv
      subst hx
      subst hv
      simp [lookupId]
    · have hxrest : x ∈ rest.map Prod.fst := List.mem_map_of_mem Prod.fst hrest
      have hk : k ≠ x := fun hkx => (List.nodup_cons.mp hnd2).1 (hkx ▸ hxrest)
      simp only [lookupId, if_neg hk]
      exact lookupId_of_mem_nodup (List.nodup_cons.mp hnd2).2 hrest

theorem blockAux_keys : ∀ (xs : List String) (i0 : ℕ),
    (blockAux xs i0).map Prod.fst = xs
  | [], _ => rfl
  | x :: rest, i0 => by simp [blockAux, blockAux_keys rest]

theorem blockAux_mem : ∀ (xs : List String) (i0 : ℕ) (x : String) (i : ℕ),
    (x, i) ∈ blockAux xs i0 →
      i0 ≤ i ∧ i < i0 + xs.length ∧ xs.get? (i - i0) = some x
  | [], _, _, _, h => by simp [blockAux] at h
  | y :: rest, i0, x, i, h => by
    rcases List.mem_cons.mp h with heq | hrest
    · obtain ⟨hx, hv⟩ := Prod.ext_iff.mp heq
      simp only at hx hv
      subst hx
      subst hv
      simp
    · obtain ⟨h1, h2, h3⟩ := blockAux_mem rest (i0 + 1) x i hrest
      refine ⟨by omega, by simp; omega, ?_⟩
      have : i - i0 = (i - (i0 + 1)) + 1 := by omega
      rw [this]
      simpa using h3

theorem blockAux_lookup_of_mem : ∀ (xs : List String) (i0 : ℕ) (x : String),
    x ∈ xs → ∃ i, lookupId x (blockAux xs i0) = some i ∧ i < i0 + xs.length
  | [], _, _, h => by simp at h
  | y :: rest, i0, x, h => by
    by_cases hy : y = x
    · exact ⟨i0, by simp [blockAux, lookupId, hy], by simp only [List.length_cons]; omega⟩
    · rcases List.mem_cons.mp h with heq | hrest
      · exact absurd heq.symm hy
      · obtain ⟨i, hi, hb⟩ := blockAux_lookup_of_mem rest (i0 + 1) x hrest
        exact ⟨i, by simpa [blockAux, lookupId, hy] using hi, by simp at hb ⊢; omega⟩

/-- Two ids looked up at the same index in one block are equal. -/
theorem blockOf_index_inj {xs : List String} {x1 x2 : String} {i : ℕ}
    (h1 : lookupId x1 (blockOf xs) = some i)
    (h2 : lookupId x2 (blockOf xs) = some i) : x1 = x2 := by
  obtain ⟨_, _, hg1⟩ := blockAux_mem xs 0 x1 i (lookupId_mem h1)
  obtain ⟨_, _, hg2⟩ := blockAux_mem xs 0 x2 i (lookupId_mem h2)
  rw [hg1] at hg2
  exact (Option.some.injEq _ _ ▸ hg2).symm ▸ rfl

theorem blockOf_lookup_lt {xs : List String} {x : String} {i : ℕ}
    (h : lookupId x (blockOf xs) = some i) : i < xs.length := by
  obtain ⟨_, hb, _⟩ := blockAux_mem xs 0 x i (lookupId_mem h)
  simpa using hb

theorem blockOf_keys (xs : List String) : (blockOf xs).map Prod.fst = xs :=
  blockAux_keys xs 0

theorem le_foldr_max {α : Type} [LinearOrder α] {a : α} {l : List α} (b : α)
    (h : a ∈ l) : a ≤ l.foldr max b := by
  induction l with
  | nil => simp at h
  | cons x rest ih =>
    rcases List.mem_cons.mp h with rfl | hr
    · exact le_max_left _ _
    · exact le_trans (ih hr) (le_max_right _ _)

theorem init_le_foldr_max {α : Type} [LinearOrder α] (b : α) (l : List α) :
    b ≤ l.foldr max b := by
  induction l with
  | nil => exact le_refl b
  | cons x rest ih => exact le_trans ih (le_max_right _ _)

/-! ## BFS lemmas: termination, stability of labels, level bound -/

theorem bfsLoop_zero (edges : List FlowEdge) (q : List BfsEntry) (p : Finset String)
    (l : List (String × ℕ)) : bfsLoop edges 0 q p l = ⟨l, p, q⟩ := rfl

theorem bfsLoop_nil (edges : List FlowEdge) (fuel : ℕ) (p : Finset String)
    (l : List (String × ℕ)) : bfsLoop edges (fuel + 1) [] p l = ⟨l, p, []⟩ := rfl

theorem bfsLoop_cons (edges : List FlowEdge) (fuel : ℕ) (en : BfsEntry)
    (rest : List BfsEntry) (p : Finset String) (l : List (String × ℕ)) :
    bfsLoop edges (fuel + 1) (en :: rest) p l =
      if en.id ∈ p then bfsLoop edges fuel rest p l
      else
        bfsLoop edges fuel
          (rest ++ ((((edges.filter fun e => e.fromId = en.id).map FlowEdge.toId).filter
            fun c => decide (c ∉ insert en.id p)).map fun c => BfsEntry.mk c (en.level + 1)))
          (insert en.id p) (l ++ [(en.id, en.level)]) := rfl

/-- The termination potential of the BFS loop: pending pushes plus pending
pops. -/
def bfsPotential (edges : List FlowEdge) (queue : List BfsEntry)
    (p : Finset String) : ℕ :=
  (edges.filter fun e => decide (e.fromId ∉ p)).length + queue.length

theorem filter_insert_split (edges : List FlowEdge) (p : Finset String)
    (id : String) (hid : id ∉ p) :
    (edges.filter fun e => decide (e.fromId ∉ insert id p)).length
      + (edges.filter fun e => e.fromId = id).length
      = (edges.filter fun e => decide (e.fromId ∉ p)).length := by
  induction edges with
  | nil => rfl
  | cons e rest ih =>
    simp only [List.filter_cons]
    by_cases h1 : e.fromId = id
    · rw [if_neg (by simp [h1]), if_pos (by simp [h1]), if_pos (by simp [h1, hid])]
      simp only [List.length_cons]
      omega
    · by_cases h2 : e.fromId ∈ p
      · rw [if_neg (by simp [Finset.mem_insert_of_mem h2]), if_neg (by simp [h1]),
          if_neg (by simp [h2])]
        exact ih
      · rw [if_pos (by simp [Finset.mem_insert, h1, h2]), if_neg (by simp [h1]),
          if_pos (by simp [h2])]
        simp only [List.length_cons]
        omega

/-- The BFS loop drains its queue whenever the fuel covers the potential:
the `while (queue.length > 0)` loop of the source terminates. -/
theorem bfsLoop_queue_empty (edges : List FlowEdge) :
    ∀ (fuel : ℕ) (q : List BfsEntry) (p : Finset String) (l : List (String × ℕ)),
      bfsPotential edges q p ≤ fuel → (bfsLoop edges fuel q p l).queue = []
  | 0, q, p, l, h => by
    cases q with
    | nil => rfl
    | cons en rest =>
      exfalso
      simp [bfsPotential] at h
  | fuel + 1, [], p, l, _ => rfl
  | fuel + 1, en :: rest, p, l, h => by
    rw [bfsLoop_cons]
    split
    · refine bfsLoop_queue_empty edges fuel rest p l ?_
      simp only [bfsPotential, List.length_cons] at h ⊢
      omega
    · rename_i hnp
      refine bfsLoop_queue_empty edges fuel _ _ _ ?_
      have hsplit := filter_insert_split edges p en.id hnp
      have hpush :
          ((((edges.filter fun e => e.fromId = en.id).map FlowEdge.toId).filter
            fun c => decide (c ∉ insert en.id p)).map
              fun c => BfsEntry.mk c (en.level + 1)).length
          ≤ (edges.filter fun e => e.fromId = en.id).length := by
        rw [List.length_map]
        calc (((edges.filter fun e => e.fromId = en.id).map FlowEdge.toId).filter
            fun c => decide (c ∉ insert en.id p)).length
            ≤ ((edges.filter fun e => e.fromId = en.id).map FlowEdge.toId).length :=
              List.length_filter_le _ _
        _ = _ := List.length_map _ _
      simp only [bfsPotential, List.length_append, List.length_cons] at h ⊢
      omega

/-- A node already labelled is never relabelled: existing bindings survive to
the final level map. -/
theorem bfsLoop_persist (edges : List FlowEdge) :
    ∀ (fuel : ℕ) (q : List BfsEntry) (p : Finset String) (l : List (String × ℕ)),
      (∀ pr ∈ l, pr.1 ∈ p) → ∀ (x : String) (v : ℕ), lookupId x l = some v →
      lookupId x (bfsLoop edges fuel q p l).levels = some v
  | 0, q, p, l, _, x, v, h => h
  | fuel + 1, [], p, l, _, x, v, h => h
  | fuel + 1, en :: rest, p, l, hdom, x, v, h => by
    rw [bfsLoop_cons]
    split
    · exact bfsLoop_persist edges fuel rest p l hdom x v h
    · rename_i hnp
      refine bfsLoop_persist edges fuel _ _ _ ?_ x v (lookupId_append_some _ h)
      intro pr hpr
      rcases List.mem_append.mp hpr with hold | hnew
      · exact Finset.mem_insert_of_mem (hdom pr hold)
      · simp only [List.mem_singleton] at hnew
        subst hnew
        exact Finset.mem_insert_self _ _

/-- The level-map keys stay duplicate-free and lie inside the processed set. -/
theorem bfsLoop_nodup (edges : List FlowEdge) :
    ∀ (fuel : ℕ) (q : List BfsEntry) (p : Finset String) (l : List (String × ℕ)),
      (∀ pr ∈ l, pr.1 ∈ p) → (l.map Prod.fst).Nodup →
      ((bfsLoop edges fuel q p l).levels.map Prod.fst).Nodup
      ∧ (∀ pr ∈ (bfsLoop edges fuel q p l).levels,
          pr.1 ∈ (bfsLoop edges fuel q p l).processed)
  | 0, q, p, l, hdom, hnd => ⟨hnd, hdom⟩
  | fuel + 1, [], p, l, hdom, hnd => ⟨hnd, hdom⟩
  | fuel + 1, en :: rest, p, l, hdom, hnd => by
    rw [bfsLoop_cons]
    split
    · exact bfsLoop_nodup edges fuel rest p l hdom hnd
    · rename_i hnp
      refine bfsLoop_nodup edges fuel _ _ _ ?_ ?_
      · intro pr hpr
        rcases List.mem_append.mp hpr with hold | hnew
        · exact Finset.mem_insert_of_mem (hdom pr hold)
        · simp only [List.mem_singleton] at hnew
          subst hnew
          exact Finset.mem_insert_self _ _
      · rw [List.map_append]
        refine List.Nodup.append hnd (by simp) ?_
        intro a ha hb
        simp only [List.map_cons, List.map_nil, List.mem_singleton] at hb
        subst hb
        obtain ⟨pr, hpr, hfst⟩ := List.mem_map.mp ha
        exact hnp (hfst ▸ hdom pr hpr)

/-- Every start node (queued at level 0 and not yet processed) ends up bound
to level 0. -/
theorem bfsLoop_roots (edges : List FlowEdge) :
    ∀ (R : List String) (rest : List BfsEntry) (p : Finset String)
      (l : List (String × ℕ)) (fuel : ℕ),
      R.length ≤ fuel → (∀ r ∈ R, r ∉ p) → R.Nodup → (∀ pr ∈ l, pr.1 ∈ p) →
      ∀ r ∈ R, lookupId r
        (bfsLoop edges fuel (R.map (fun r => BfsEntry.mk r 0) ++ rest) p l).levels
        = some 0
  | [], _, _, _, _, _, _, _, _, r, hr => by simp at hr
  | r0 :: R, rest, p, l, 0, hfuel, _, _, _, _, _ => by simp at hfuel
  | r0 :: R, rest, p, l, fuel + 1, hfuel, hfresh, hnd, hdom, r, hr => by
    rw [List.map_cons, List.cons_append, bfsLoop_cons,
      if_neg (hfresh r0 (List.mem_cons_self _ _))]
    have hdom1 : ∀ pr ∈ l ++ [(r0, (0 : ℕ))], pr.1 ∈ insert r0 p := by
      intro pr hpr
      rcases List.mem_append.mp hpr with hold | hnew
      · exact Finset.mem_insert_of_mem (hdom pr hold)
      · simp only [List.mem_singleton] at hnew
        subst hnew
        exact Finset.mem_insert_self _ _
    rcases List.mem_cons.mp hr with rfl | hrR
    · -- the popped root itself: bound now and never relabelled
      have hnone : lookupId r l = none := by
        rw [lookupId_none_iff]
        intro hmem
        obtain ⟨pr, hpr, hfst⟩ := List.mem_map.mp hmem
        exact hfresh r (List.mem_cons_self _ _) (hfst ▸ hdom pr hpr)
      have hsome : lookupId r (l ++ [(r, (0 : ℕ))]) = some 0 := by
        rw [lookupId_append_none _ hnone]
        simp [lookupId]
      rw [List.append_assoc]
      exact bfsLoop_persist edges fuel _ _ _ hdom1 r 0 hsome
    · rw [List.append_assoc]
      refine bfsLoop_roots edges R _ (insert r0 p) _ fuel ?_ ?_ ?_ hdom1 r hrR
      · simp only [List.length_cons] at hfuel
        omega
      · intro r1 hr1
        rw [Finset.mem_insert]
        push_neg
        exact ⟨fun h => (List.nodup_cons.mp hnd).1 (h ▸ hr1),
          hfresh r1 (List.mem_cons_of_mem _ hr1)⟩
      · exact (List.nodup_cons.mp hnd).2

/-- Every level ever assigned stays below the size of the id universe `U`:
the BFS depth of any node is bounded by the number of distinct processable
ids. -/
theorem bfsLoop_levels_lt (edges : List FlowEdge) (U : Finset String)
    (hU : ∀ e ∈ edges, e.toId ∈ U) :
    ∀ (fuel : ℕ) (q : List BfsEntry) (p : Finset String) (l : List (String × ℕ)),
      (∀ en ∈ q, en.level ≤ p.card ∧ en.id ∈ U) →
      (∀ pr ∈ l, pr.2 < p.card) → p ⊆ U →
      ∀ pr ∈ (bfsLoop edges fuel q p l).levels, pr.2 < U.card
  | 0, q, p, l, _, hl, hpU, pr, hpr =>
    lt_of_lt_of_le (hl pr hpr) (Finset.card_le_card hpU)
  | fuel + 1, [], p, l, _, hl, hpU, pr, hpr =>
    lt_of_lt_of_le (hl pr hpr) (Finset.card_le_card hpU)
  | fuel + 1, en :: rest, p, l, hq, hl, hpU, pr, hpr => by
    rw [bfsLoop_cons] at hpr
    split at hpr
    · exact bfsLoop_levels_lt edges U hU fuel rest p l
        (fun e he => hq e (List.mem_cons_of_mem _ he)) hl hpU pr hpr
    · rename_i hnp
      have hcard : (insert en.id p).card = p.card + 1 :=
        Finset.card_insert_of_not_mem hnp
      refine bfsLoop_levels_lt edges U hU fuel _ _ _ ?_ ?_ ?_ pr hpr
      · intro e he
        rcases List.mem_append.mp he with hr | hpush
        · obtain ⟨h1, h2⟩ := hq e (List.mem_cons_of_mem _ hr)
          exact ⟨by omega, h2⟩
        · obtain ⟨c, hc, rfl⟩ := List.mem_map.mp hpush
          have hcU : c ∈ U := by
            have hc2 := List.mem_of_mem_filter hc
            obtain ⟨e0, he0, rfl⟩ := List.mem_map.mp hc2
            exact hU e0 (List.mem_of_mem_filter he0)
          have hlev := (hq en (List.mem_cons_self _ _)).1
          exact ⟨by simp; omega, hcU⟩
      · intro pr0 hpr0
        rcases List.mem_append.mp hpr0 with hold | hnew
        · have := hl pr0 hold
          omega
        · simp only [List.mem_singleton] at hnew
          subst hnew
          have hlev := (hq en (List.mem_cons_self _ _)).1
          simp only
          omega
      · exact Finset.insert_subset ((hq en (List.mem_cons_self _ _)).2) hpU

/-! ## Default pass and `assignLevels` facts -/

theorem defaultPass_cons (s : ScreenNode) (ss : List ScreenNode)
    (l : List (String × ℕ)) :
    defaultPass (s :: ss) l
      = defaultPass ss (if (lookupId s.id l).isNone then l ++ [(s.id, 0)] else l) := rfl

theorem defaultPass_persist : ∀ (screens : List ScreenNode)
    (l : List (String × ℕ)) (x : String) (v : ℕ),
    lookupId x l = some v → lookupId x (defaultPass screens l) = some v
  | [], _, _, _, h => h
  | s :: ss, l, x, v, h => by
    rw [defaultPass_cons]
    split
    · exact defaultPass_persist ss _ x v (lookupId_append_some _ h)
    · exact defaultPass_persist ss _ x v h

theorem defaultPass_isSome : ∀ (screens : List ScreenNode)
    (l : List (String × ℕ)), ∀ s ∈ screens,
    (lookupId s.id (defaultPass screens l)).isSome
  | [], _, s, hs => by simp at hs
  | s0 :: ss, l, s, hs => by
    rcases List.mem_cons.mp hs with rfl | hss
    · rw [defaultPass_cons]
      cases hl : lookupId s.id l with
      | none =>
        rw [if_pos (by simp [hl])]
        have : lookupId s.id (l ++ [(s.id, 0)]) = some 0 := by
          rw [lookupId_append_none _ hl]
          simp [lookupId]
        rw [defaultPass_persist ss _ s.id 0 this]
        rfl
      | some v =>
        rw [if_neg (by simp [hl])]
        rw [defaultPass_persist ss _ s.id v hl]
        rfl
    · rw [defaultPass_cons]
      exact defaultPass_isSome ss _ s hss

theorem defaultPass_nodup : ∀ (screens : List ScreenNode)
    (l : List (String × ℕ)), (l.map Prod.fst).Nodup →
    ((defaultPass screens l).map Prod.fst).Nodup
  | [], _, h => h
  | s :: ss, l, h => by
    rw [defaultPass_cons]
    split
    · rename_i hnone
      refine defaultPass_nodup ss _ ?_
      rw [List.map_append]
      refine List.Nodup.append h (by simp) ?_
      intro a ha hb
      simp only [List.map_cons, List.map_nil, List.mem_singleton] at hb
      subst hb
      exact lookupId_none_iff.mp (Option.isNone_iff_eq_none.mp hnone) ha
    · exact defaultPass_nodup ss l h

theorem defaultPass_values : ∀ (screens : List ScreenNode)
    (l : List (String × ℕ)) (pr : String × ℕ),
    pr ∈ defaultPass screens l → pr ∈ l ∨ pr.2 = 0
  | [], _, _, h => Or.inl h
  | s :: ss, l, pr, h => by
    rw [defaultPass_cons] at h
    rcases defaultPass_values ss _ pr h with hin | hz
    · split at hin
      · rcases List.mem_append.mp hin with hl | hs
        · exact Or.inl hl
        · simp only [List.mem_singleton] at hs
          subst hs
          exact Or.inr rfl
      · exact Or.inl hin
    · exact Or.inr hz

theorem assignLevels_nodup (data : AnalysisResult) :
    ((assignLevels data).map Prod.fst).Nodup := by
  refine defaultPass_nodup _ _ ?_
  exact (bfsLoop_nodup data.edges _ _ _ _ (by simp) (by simp)).1

theorem assignLevels_isSome (data : AnalysisResult) :
    ∀ s ∈ data.screens, (lookupId s.id (assignLevels data)).isSome :=
  defaultPass_isSome data.screens (bfsRun data).levels

theorem startNodesOf_subset (data : AnalysisResult) :
    ∀ n ∈ startNodesOf data, n ∈ data.screens := by
  intro n hn
  unfold startNodesOf at hn
  split at hn
  · exact List.mem_of_mem_filter hn
  · exact List.take_subset _ _ hn

theorem assignLevels_lt (data : AnalysisResult)
    (hedges : ∀ e ∈ data.edges, ∃ s ∈ data.screens, s.id = e.toId)
    (hpos : 0 < data.screens.length) :
    ∀ pr ∈ assignLevels data, pr.2 < data.screens.length := by
  intro pr hpr
  rcases defaultPass_values data.screens (bfsRun data).levels pr hpr with hin | hz
  · have hU : ∀ e ∈ data.edges, e.toId ∈ (data.screens.map ScreenNode.id).toFinset := by
      intro e he
      obtain ⟨s, hs, hid⟩ := hedges e he
      rw [List.mem_toFinset]
      exact hid ▸ List.mem_map_of_mem ScreenNode.id hs
    have hlt := bfsLoop_levels_lt data.edges _ hU
      (data.screens.length + data.edges.length) (startQueue data) ∅ []
      (by
        intro en hen
        obtain ⟨n, hn, rfl⟩ := List.mem_map.mp hen
        refine ⟨by simp, ?_⟩
        rw [List.mem_toFinset]
        exact List.mem_map_of_mem ScreenNode.id (startNodesOf_subset data n hn))
      (by simp) (by simp) pr hin
    calc pr.2 < (data.screens.map ScreenNode.id).toFinset.card := hlt
    _ ≤ (data.screens.map ScreenNode.id).length := List.toFinset_card_le _
    _ = data.screens.length := List.length_map _ _
  · omega

theorem assignLevels_roots (data : AnalysisResult)
    (hnd : (data.screens.map ScreenNode.id).Nodup) :
    ∀ s ∈ data.screens, (∀ e ∈ data.edges, e.toId ≠ s.id) →
      lookupId s.id (assignLevels data) = some 0 := by
  intro s hs hroot
  have hsrt : s ∈ rootsOf data := by
    rw [rootsOf, List.mem_filter]
    refine ⟨hs, ?_⟩
    simp only [decide_eq_true_eq]
    intro hmem
    obtain ⟨e, he, hid⟩ := List.mem_map.mp hmem
    exact hroot e he hid
  have hlenpos : 0 < (rootsOf data).length :=
    List.length_pos.mpr (fun h0 => by rw [h0] at hsrt; simp at hsrt)
  have hstart : startNodesOf data = rootsOf data := if_pos hlenpos
  have hqueue : startQueue data
      = ((rootsOf data).map ScreenNode.id).map (fun r => BfsEntry.mk r 0) ++ [] := by
    rw [startQueue, hstart, List.map_map, List.append_nil]
    rfl
  have hR : s.id ∈ (rootsOf data).map ScreenNode.id := List.mem_map_of_mem _ hsrt
  have hRnd : ((rootsOf data).map ScreenNode.id).Nodup := by
    refine hnd.sublist ?_
    exact (List.filter_sublist _).map ScreenNode.id
  have hbfs : lookupId s.id (bfsRun data).levels = some 0 := by
    rw [bfsRun, hqueue]
    refine bfsLoop_roots data.edges _ [] ∅ [] _ ?_ (by simp) hRnd (by simp) s.id hR
    calc ((rootsOf data).map ScreenNode.id).length
        = (rootsOf data).length := List.length_map _ _
    _ ≤ data.screens.length := List.length_filter_le _ _
    _ ≤ data.screens.length + data.edges.length := Nat.le_add_right _ _
  exact defaultPass_persist data.screens _ s.id 0 hbfs

/-! ## Level grouping and `finalPositions` facts -/

theorem mem_nodesByLevel {levels : List (String × ℕ)} {x : String} {l : ℕ} :
    x ∈ nodesByLevel levels l ↔ (x, l) ∈ levels := by
  constructor
  · intro hx
    obtain ⟨pr, hpr, hfst⟩ := List.mem_map.mp hx
    have h2 : pr.2 = l := by simpa using (List.mem_filter.mp hpr).2
    have : pr = (x, l) := Prod.ext hfst h2
    exact this ▸ (List.mem_filter.mp hpr).1
  · intro hx
    refine List.mem_map.mpr ⟨(x, l), List.mem_filter.mpr ⟨hx, by simp⟩, rfl⟩

theorem level_le_maxLevel {levels : List (String × ℕ)} {x : String} {lv : ℕ}
    (h : (x, lv) ∈ levels) : lv ≤ maxLevelOf levels :=
  le_foldr_max 0 (List.mem_map_of_mem Prod.snd h)

theorem orderedIds_perm (data : AnalysisResult) (levels fp : List (String × ℕ))
    (l : ℕ) : (orderedIds data levels fp l).Perm (nodesByLevel levels l) := by
  unfold orderedIds
  split
  · rename_i h0
    subst h0
    exact List.Perm.refl _
  · refine ((List.mergeSort_perm _ _).map NodeWeight.id).trans ?_
    rw [nodeWeightsOf, List.map_map]
    have : (NodeWeight.id ∘ fun id =>
        let parents := (data.edges.filter fun e => e.toId = id).map FlowEdge.fromId
        let validParents := parents.filter fun pid => (lookupId pid fp).isSome
        let parentWeight : ℚ :=
          if validParents.length = 0 then 9999
          else ((validParents.map fun pid => ((lookupId pid fp).getD 0 : ℚ)).sum)
            / (validParents.length : ℚ)
        NodeWeight.mk id parentWeight (getFrameIndex data id)) = fun id => id := rfl
    rw [this, List.map_id']

theorem levelBlock_lookup_of_mem {data : AnalysisResult}
    {levels fp : List (String × ℕ)} {l : ℕ} {x : String}
    (hx : x ∈ nodesByLevel levels l) :
    ∃ i, lookupId x (levelBlock data levels fp l) = some i
      ∧ i < (nodesByLevel levels l).length := by
  have hperm := orderedIds_perm data levels fp l
  obtain ⟨i, hi, hbound⟩ :=
    blockAux_lookup_of_mem (orderedIds data levels fp l) 0 x (hperm.mem_iff.mpr hx)
  exact ⟨i, hi, by simpa [hperm.length_eq] using hbound⟩

theorem levelBlock_lookup_mem {data : AnalysisResult}
    {levels fp : List (String × ℕ)} {l : ℕ} {x : String} {i : ℕ}
    (h : lookupId x (levelBlock data levels fp l) = some i) :
    x ∈ nodesByLevel levels l := by
  have hkeys : x ∈ (levelBlock data levels fp l).map Prod.fst :=
    List.mem_map_of_mem Prod.fst (lookupId_mem h)
  rw [levelBlock, blockOf_keys] at hkeys
  exact (orderedIds_perm data levels fp l).mem_iff.mp hkeys

theorem buildPosAux_cons (data : AnalysisResult) (levels : List (String × ℕ))
    (l : ℕ) (ls : List ℕ) (fp : List (String × ℕ)) :
    buildPosAux data levels (l :: ls) fp
      = buildPosAux data levels ls (fp ++ levelBlock data levels fp l) := rfl

theorem buildPosAux_persist (data : AnalysisResult) (levels : List (String × ℕ)) :
    ∀ (ls : List ℕ) (fp : List (String × ℕ)) (x : String) (v : ℕ),
      lookupId x fp = some v →
      lookupId x (buildPosAux data levels ls fp) = some v
  | [], _, _, _, h => h
  | l :: ls, fp, x, v, h =>
    buildPosAux_persist data levels ls _ x v (lookupId_append_some _ h)

/-- The two load-bearing facts about `finalPositions`: every id of a level
processed by the loop gets an index smaller than the level's population, and
within one level no two distinct ids share an index. -/
theorem buildPosAux_main (data : AnalysisResult) (levels : List (String × ℕ))
    (hnd : (levels.map Prod.fst).Nodup) :
    ∀ (ls : List ℕ), ls.Nodup → ∀ (fp : List (String × ℕ)),
      (∀ x i, lookupId x fp = some i → ∀ lv ∈ ls, (x, lv) ∉ levels) →
      (∀ x1 x2 i lv, lookupId x1 fp = some i → lookupId x2 fp = some i →
        (x1, lv) ∈ levels → (x2, lv) ∈ levels → x1 = x2) →
      (∀ x lv, (x, lv) ∈ levels → lv ∈ ls →
        ∃ i, lookupId x (buildPosAux data levels ls fp) = some i
          ∧ i < (nodesByLevel levels lv).length)
      ∧ (∀ x1 x2 i lv, lookupId x1 (buildPosAux data levels ls fp) = some i →
          lookupId x2 (buildPosAux data levels ls fp) = some i →
          (x1, lv) ∈ levels → (x2, lv) ∈ levels → x1 = x2)
  | [], _, fp, _, hinj => ⟨fun _ _ _ h => by simp at h, hinj⟩
  | l :: ls, hlsnd, fp, hnew, hinj => by
    have hlnotls : l ∉ ls := (List.nodup_cons.mp hlsnd).1
    have hfpblk : ∀ x i, lookupId x (fp ++ levelBlock data levels fp l) = some i →
        lookupId x fp = some i
          ∨ (lookupId x fp = none ∧ lookupId x (levelBlock data levels fp l) = some i) := by
      intro x i hx
      cases hfp : lookupId x fp with
      | none => exact Or.inr ⟨rfl, by rwa [lookupId_append_none _ hfp] at hx⟩
      | some j =>
        rw [lookupId_append_some _ hfp] at hx
        exact Or.inl hx
    have hnew1 : ∀ x i, lookupId x (fp ++ levelBlock data levels fp l) = some i →
        ∀ lv ∈ ls, (x, lv) ∉ levels := by
      intro x i hx lv hlv hmem
      rcases hfpblk x i hx with hfp | ⟨_, hblk⟩
      · exact hnew x i hfp lv (List.mem_cons_of_mem _ hlv) hmem
      · have hxl : (x, l) ∈ levels := mem_nodesByLevel.mp (levelBlock_lookup_mem hblk)
        have := (lookupId_of_mem_nodup hnd hxl).symm.trans (lookupId_of_mem_nodup hnd hmem)
        have hlv_eq : l = lv := by simpa using this
        exact hlnotls (by rw [hlv_eq]; exact hlv)
    have hinj1 : ∀ x1 x2 i lv,
        lookupId x1 (fp ++ levelBlock data levels fp l) = some i →
        lookupId x2 (fp ++ levelBlock data levels fp l) = some i →
        (x1, lv) ∈ levels → (x2, lv) ∈ levels → x1 = x2 := by
      intro x1 x2 i lv h1 h2 hm1 hm2
      rcases hfpblk x1 i h1 with hfp1 | ⟨hn1, hb1⟩
      · rcases hfpblk x2 i h2 with hfp2 | ⟨hn2, hb2⟩
        · exact hinj x1 x2 i lv hfp1 hfp2 hm1 hm2
        · exfalso
          have hx2l : (x2, l) ∈ levels := mem_nodesByLevel.mp (levelBlock_lookup_mem hb2)
          have hlv_eq : lv = l := by
            simpa using (lookupId_of_mem_nodup hnd hm2).symm.trans
              (lookupId_of_mem_nodup hnd hx2l)
          exact hnew x1 i hfp1 lv (by rw [hlv_eq]; exact List.mem_cons_self l ls) hm1
      · rcases hfpblk x2 i h2 with hfp2 | ⟨hn2, hb2⟩
        · exfalso
          have hx1l : (x1, l) ∈ levels := mem_nodesByLevel.mp (levelBlock_lookup_mem hb1)
          have hlv_eq : lv = l := by
            simpa using (lookupId_of_mem_nodup hnd hm1).symm.trans
              (lookupId_of_mem_nodup hnd hx1l)
          exact hnew x2 i hfp2 lv (by rw [hlv_eq]; exact List.mem_cons_self l ls) hm2
        · exact blockOf_index_inj hb1 hb2
    rw [buildPosAux_cons]
    obtain ⟨ihsome, ihinj⟩ := buildPosAux_main data levels hnd ls
      (List.nodup_cons.mp hlsnd).2 _ hnew1 hinj1
    refine ⟨?_, ihinj⟩
    intro x lv hmem hlv
    rcases List.mem_cons.mp hlv with rfl | hlv'
    · have hx : x ∈ nodesByLevel levels lv := mem_nodesByLevel.mpr hmem
      obtain ⟨i, hi, hbound⟩ := @levelBlock_lookup_of_mem data levels fp lv x hx
      have hfpnone : lookupId x fp = none := by
        cases hfp : lookupId x fp with
        | none => rfl
        | some j =>
          exact absurd hmem (hnew x j hfp lv (List.mem_cons_self _ _))
      have hsome : lookupId x (fp ++ levelBlock data levels fp lv) = some i := by
        rw [lookupId_append_none _ hfpnone]
        exact hi
      exact ⟨i, buildPosAux_persist data levels ls _ x i hsome, hbound⟩
    · exact ihsome x lv hmem hlv'

/-! ## Layout bounds plumbing -/

theorem levelWidth_le_maxRowWidth (cfg : LayoutConfig) (levels : List (String × ℕ))
    (maxLevel lv : ℕ) (h : lv ≤ maxLevel) :
    levelWidth cfg levels lv ≤ maxRowWidthOf cfg levels maxLevel :=
  le_foldr_max 0 (List.mem_map_of_mem _ (List.mem_range.mpr (by omega)))

theorem maxRowWidth_nonneg (cfg : LayoutConfig) (levels : List (String × ℕ))
    (maxLevel : ℕ) : 0 ≤ maxRowWidthOf cfg levels maxLevel :=
  init_le_foldr_max 0 _

theorem buildNode_id (cfg : LayoutConfig) (levels fp : List (String × ℕ))
    (w : ℚ) (s : ScreenNode) : (buildNode cfg levels fp w s).id = s.id := rfl

theorem buildNode_level (cfg : LayoutConfig) (levels fp : List (String × ℕ))
    (w : ℚ) (s : ScreenNode) :
    (buildNode cfg levels fp w s).level = (lookupId s.id levels).getD 0 := rfl

theorem buildNode_order (cfg : LayoutConfig) (levels fp : List (String × ℕ))
    (w : ℚ) (s : ScreenNode) :
    (buildNode cfg levels fp w s).orderInLevel = (lookupId s.id fp).getD 0 := rfl

theorem buildNode_x (cfg : LayoutConfig) (levels fp : List (String × ℕ))
    (w : ℚ) (s : ScreenNode) :
    (buildNode cfg levels fp w s).x
      = (w - levelWidth cfg levels ((lookupId s.id levels).getD 0)) / 2
        + (((lookupId s.id fp).getD 0 : ℕ) : ℚ) * (cfg.nodeWidth + cfg.gapX)
        + cfg.leftPad := rfl

theorem buildNode_y (cfg : LayoutConfig) (levels fp : List (String × ℕ))
    (w : ℚ) (s : ScreenNode) :
    (buildNode cfg levels fp w s).y
      = (((lookupId s.id levels).getD 0 : ℕ) : ℚ) * (cfg.nodeHeight + cfg.gapY)
        + cfg.topMargin := rfl

theorem calcLayout_nodes (cfg : LayoutConfig) (data : AnalysisResult) :
    (calculateInitialLayout cfg data).nodes
      = data.screens.map (buildNode cfg (assignLevels data)
          (buildPositions data (assignLevels data) (maxLevelOf (assignLevels data)))
          (maxRowWidthOf cfg (assignLevels data) (maxLevelOf (assignLevels data)))) := rfl

theorem calcLayout_width (cfg : LayoutConfig) (data : AnalysisResult) :
    (calculateInitialLayout cfg data).width
      = maxRowWidthOf cfg (assignLevels data) (maxLevelOf (assignLevels data))
        + cfg.widthPad := rfl

theorem calcLayout_height (cfg : LayoutConfig) (data : AnalysisResult) :
    (calculateInitialLayout cfg data).height
      = ((maxLevelOf (assignLevels data) : ℚ) + 1) * (cfg.nodeHeight + cfg.gapY)
        + cfg.heightPad := rfl

theorem buildPositions_facts (data : AnalysisResult) :
    (∀ x lv, (x, lv) ∈ assignLevels data →
      ∃ i, lookupId x (buildPositions data (assignLevels data)
            (maxLevelOf (assignLevels data))) = some i
        ∧ i < (nodesByLevel (assignLevels data) lv).length)
    ∧ (∀ x1 x2 i lv,
        lookupId x1 (buildPositions data (assignLevels data)
          (maxLevelOf (assignLevels data))) = some i →
        lookupId x2 (buildPositions data (assignLevels data)
          (maxLevelOf (assignLevels data))) = some i →
        (x1, lv) ∈ assignLevels data → (x2, lv) ∈ assignLevels data → x1 = x2) := by
  have main := buildPosAux_main data (assignLevels data) (assignLevels_nodup data)
    (List.range (maxLevelOf (assignLevels data) + 1)) (List.nodup_range _) []
    (by intro x i h; simp [lookupId] at h)
    (by intro x1 x2 i lv h; simp [lookupId] at h)
  refine ⟨?_, main.2⟩
  intro x lv hmem
  refine main.1 x lv hmem (List.mem_range.mpr ?_)
  have := level_le_maxLevel hmem
  omega

/-- Generic containment: every laid-out node card fits inside the reported
canvas extent, for any config whose constants satisfy the listed sign
conditions (both shipped configs do). -/
theorem layout_inBounds (cfg : LayoutConfig) (data : AnalysisResult)
    (hw : 0 ≤ cfg.nodeWidth) (hgx : 0 ≤ cfg.gapX) (hh : 0 ≤ cfg.nodeHeight)
    (hgy : 0 ≤ cfg.gapY) (htop : 0 ≤ cfg.topMargin) (hleft : 0 ≤ cfg.leftPad)
    (hlw : cfg.leftPad ≤ cfg.widthPad)
    (hth : cfg.topMargin ≤ cfg.gapY + cfg.heightPad) :
    ∀ n ∈ (calculateInitialLayout cfg data).nodes,
      0 ≤ n.x ∧ 0 ≤ n.y
      ∧ n.x + cfg.nodeWidth ≤ (calculateInitialLayout cfg data).width
      ∧ n.y + cfg.nodeHeight ≤ (calculateInitialLayout cfg data).height := by
  intro n hn
  rw [calcLayout_nodes] at hn
  obtain ⟨s, hs, rfl⟩ := List.mem_map.mp hn
  obtain ⟨lv, hlv⟩ := Option.isSome_iff_exists.mp (assignLevels_isSome data s hs)
  have hmemL : (s.id, lv) ∈ assignLevels data := lookupId_mem hlv
  have hmax : lv ≤ maxLevelOf (assignLevels data) := level_le_maxLevel hmemL
  obtain ⟨i, hfpi, hibound⟩ := (buildPositions_facts data).1 s.id lv hmemL
  have hcount : 0 < (nodesByLevel (assignLevels data) lv).length :=
    List.length_pos.mpr (fun h0 => by
      have := mem_nodesByLevel.mpr hmemL
      rw [h0] at this
      simp at this)
  set W := maxRowWidthOf cfg (assignLevels data) (maxLevelOf (assignLevels data)) with hW
  have hcur_le : levelWidth cfg (assignLevels data) lv ≤ W :=
    levelWidth_le_maxRowWidth cfg _ _ lv hmax
  have hW0 : 0 ≤ W := maxRowWidth_nonneg cfg _ _
  rw [buildNode_x, buildNode_y, hlv, hfpi]
  simp only [Option.getD_some]
  rw [calcLayout_width, calcLayout_height]
  set cnt := (nodesByLevel (assignLevels data) lv).length with hcnt
  have hcur : levelWidth cfg (assignLevels data) lv
      = (cnt : ℚ) * (cfg.nodeWidth + cfg.gapX) - cfg.gapX := rfl
  have hiq : ((i : ℕ) : ℚ) ≤ (cnt : ℚ) - 1 := by
    have : (i : ℚ) + 1 ≤ (cnt : ℚ) := by exact_mod_cast hibound
    linarith
  have hslot : ((i : ℕ) : ℚ) * (cfg.nodeWidth + cfg.gapX) + cfg.nodeWidth
      ≤ levelWidth cfg (assignLevels data) lv := by
    rw [hcur]
    have := mul_le_mul_of_nonneg_right hiq (by linarith : (0:ℚ) ≤ cfg.nodeWidth + cfg.gapX)
    nlinarith
  have hlvq : ((lv : ℕ) : ℚ) * (cfg.nodeHeight + cfg.gapY)
      ≤ ((maxLevelOf (assignLevels data) : ℕ) : ℚ) * (cfg.nodeHeight + cfg.gapY) := by
    refine mul_le_mul_of_nonneg_right ?_ (by linarith)
    exact_mod_cast hmax
  have hinn : (0 : ℚ) ≤ ((i : ℕ) : ℚ) := by positivity
  have hlvn : (0 : ℚ) ≤ ((lv : ℕ) : ℚ) := by positivity
  refine ⟨?_, ?_, ?_, ?_⟩
  · have h1 : (0:ℚ) ≤ (W - levelWidth cfg (assignLevels data) lv) / 2 := by linarith
    have h2 : (0:ℚ) ≤ ((i : ℕ) : ℚ) * (cfg.nodeWidth + cfg.gapX) :=
      mul_nonneg hinn (by linarith)
    linarith
  · have h2 : (0:ℚ) ≤ ((lv : ℕ) : ℚ) * (cfg.nodeHeight + cfg.gapY) :=
      mul_nonneg hlvn (by linarith)
    linarith
  · linarith
  · nlinarith

/-! ## Claim theorems: C4, C5, C7, C10 -/

/-- C4: for every well-formed graph (unique ids, every edge endpoint an
existing node — acyclicity is not even needed), every laid-out node gets a
level below the node count, nodes without incoming edges get level 0, and
within one level no two nodes share an `orderInLevel`. -/
theorem claim_C4 (data : AnalysisResult) (cfg : LayoutConfig)
    (hnd : (data.screens.map ScreenNode.id).Nodup)
    (hedges : ∀ e ∈ data.edges,
      (∃ s ∈ data.screens, s.id = e.fromId) ∧ ∃ s ∈ data.screens, s.id = e.toId) :
    (∀ n ∈ (calculateInitialLayout cfg data).nodes, n.level < data.screens.length)
    ∧ (∀ n ∈ (calculateInitialLayout cfg data).nodes,
        (∀ e ∈ data.edges, e.toId ≠ n.id) → n.level = 0)
    ∧ (∀ n ∈ (calculateInitialLayout cfg data).nodes,
        ∀ p ∈ (calculateInitialLayout cfg data).nodes,
        n.id ≠ p.id → n.level = p.level → n.orderInLevel ≠ p.orderInLevel) := by
  refine ⟨?_, ?_, ?_⟩
  · intro n hn
    rw [calcLayout_nodes] at hn
    obtain ⟨s, hs, rfl⟩ := List.mem_map.mp hn
    rw [buildNode_level]
    have hpos : 0 < data.screens.length := List.length_pos.mpr (fun h0 => by
      rw [h0] at hs; simp at hs)
    cases hlk : lookupId s.id (assignLevels data) with
    | none => simpa using hpos
    | some lv =>
      simp only [Option.getD_some]
      exact assignLevels_lt data (fun e he => (hedges e he).2) hpos _ (lookupId_mem hlk)
  · intro n hn hroot
    rw [calcLayout_nodes] at hn
    obtain ⟨s, hs, rfl⟩ := List.mem_map.mp hn
    rw [buildNode_level]
    rw [assignLevels_roots data hnd s hs (by simpa [buildNode_id] using hroot)]
    rfl
  · intro n hn p hp hid hlev
    rw [calcLayout_nodes] at hn hp
    obtain ⟨s1, hs1, rfl⟩ := List.mem_map.mp hn
    obtain ⟨s2, hs2, rfl⟩ := List.mem_map.mp hp
    obtain ⟨lv1, hlv1⟩ := Option.isSome_iff_exists.mp (assignLevels_isSome data s1 hs1)
    obtain ⟨lv2, hlv2⟩ := Option.isSome_iff_exists.mp (assignLevels_isSome data s2 hs2)
    rw [buildNode_level, buildNode_level, hlv1, hlv2] at hlev
    simp only [Option.getD_some] at hlev
    subst hlev
    obtain ⟨i1, hfp1, _⟩ := (buildPositions_facts data).1 s1.id lv1 (lookupId_mem hlv1)
    obtain ⟨i2, hfp2, _⟩ := (buildPositions_facts data).1 s2.id lv1 (lookupId_mem hlv2)
    rw [buildNode_order, buildNode_order, hfp1, hfp2]
    simp only [Option.getD_some, ne_eq]
    intro hieq
    subst hieq
    have hid2 : s1.id ≠ s2.id := by simpa [buildNode_id] using hid
    exact hid2 ((buildPositions_facts data).2 s1.id s2.id i1 lv1 hfp1 hfp2
      (lookupId_mem hlv1) (lookupId_mem hlv2))

/-- Example graphs used by the concrete scenarios below. -/
def mkScreen (i : String) (fi : ℕ) : ScreenNode := ⟨i, i, i, fi⟩

/-- See `mkScreen`. -/
def mkEdge (f t : String) : FlowEdge := ⟨f, t, ""⟩

/-- The spec's fork scenario: `{A, B, C}` with `A→B`, `A→C`. -/
def forkGraph : AnalysisResult :=
  ⟨[mkScreen "A" 0, mkScreen "B" 1, mkScreen "C" 2],
   [mkEdge "A" "B", mkEdge "A" "C"]⟩

/-- The spec's back-edge scenario: `A→B`, `B→C`, `C→A`. -/
def cycleGraph : AnalysisResult :=
  ⟨[mkScreen "A" 0, mkScreen "B" 1, mkScreen "C" 2],
   [mkEdge "A" "B", mkEdge "B" "C", mkEdge "C" "A"]⟩

/-- One screen plus an edge whose target id names no screen. -/
def danglingGraph : AnalysisResult := ⟨[mkScreen "A" 0], [mkEdge "A" "X"]⟩

/-- `danglingGraph` with the dangling edge removed. -/
def danglingFreeGraph : AnalysisResult := ⟨[mkScreen "A" 0], []⟩

/-- Witness for `claim_C4` on the spec's fork scenario. -/
theorem claim_C4_witness :
    (∀ n ∈ (calculateInitialLayout layoutConfigV1 forkGraph).nodes, n.level < 3)
    ∧ (∀ n ∈ (calculateInitialLayout layoutConfigV1 forkGraph).nodes,
        (∀ e ∈ forkGraph.edges, e.toId ≠ n.id) → n.level = 0)
    ∧ (∀ n ∈ (calculateInitialLayout layoutConfigV1 forkGraph).nodes,
        ∀ p ∈ (calculateInitialLayout layoutConfigV1 forkGraph).nodes,
        n.id ≠ p.id → n.level = p.level → n.orderInLevel ≠ p.orderInLevel) :=
  claim_C4 forkGraph layoutConfigV1 (by decide) (by decide)

/-- C5: the BFS terminates — with the allotted fuel the queue is always fully
drained — and an already-assigned level binding is never overwritten (so a
back-edge into a visited node cannot demote it); concretely, on the cyclic
graph `A→B→C→A` the run terminates with `level(A) = 0` (and `B = 1`,
`C = 2`). -/
theorem claim_C5 :
    (∀ data : AnalysisResult, (bfsRun data).queue = [])
    ∧ (∀ (edges : List FlowEdge) (fuel : ℕ) (q : List BfsEntry) (p : Finset String)
        (l : List (String × ℕ)), (∀ pr ∈ l, pr.1 ∈ p) →
        ∀ (x : String) (v : ℕ), lookupId x l = some v →
        lookupId x (bfsLoop edges fuel q p l).levels = some v)
    ∧ assignLevels cycleGraph = [("A", 0), ("B", 1), ("C", 2)] := by
  refine ⟨?_, bfsLoop_persist, by decide⟩
  intro data
  refine bfsLoop_queue_empty data.edges _ _ _ _ ?_
  have h1 : (data.edges.filter fun e => decide (e.fromId ∉ (∅ : Finset String))).length
      ≤ data.edges.length := List.length_filter_le _ _
  have h2 : (startQueue data).length ≤ data.screens.length := by
    rw [startQueue, List.length_map, startNodesOf]
    split
    · exact List.length_filter_le _ _
    · rw [List.length_take]
      exact min_le_right _ _
  simp only [bfsPotential]
  omega

/-- Witness for `claim_C5` discharging the no-relabel hypotheses at a
concrete state. -/
theorem claim_C5_witness :
    lookupId "A" (bfsLoop [] 1 [] {"A"} [("A", 2)]).levels = some 2 :=
  claim_C5.2.1 [] 1 [] {"A"} [("A", 2)] (by decide) "A" 2 (by decide)

unseal Rat.mul Rat.inv Rat.add Rat.sub in
/-- C7 counterexample: the layout follows neither allowed policy.  It never
fails (the function is total, with no error path in the source), and it does
not behave as if a dangling edge were absent: with one screen `A` and the
dangling edge `A→X`, the phantom node `X` occupies a level of its own, so the
canvas height is 1460 instead of the 880 obtained with the edge removed — the
two layouts differ. -/
theorem claim_C7_counterexample :
    (calculateInitialLayout layoutConfigV1 danglingGraph).height = 1460
    ∧ (calculateInitialLayout layoutConfigV1 danglingFreeGraph).height = 880
    ∧ calculateInitialLayout layoutConfigV1 danglingGraph
        ≠ calculateInitialLayout layoutConfigV1 danglingFreeGraph := by
  refine ⟨?_, ?_, ?_⟩ <;> decide

unseal Rat.mul Rat.inv Rat.add Rat.sub in
/-- C7, amended: the layout never signals an error, and it does not drop a
dangling edge either — the BFS traverses it and assigns the nonexistent id a
level and an order slot of its own, which inflates `maxLevel` and the level
bookkeeping and hence the canvas extent (height 1460 versus 880 in the
`A`,`A→X` example), although the real node's coordinates happen to coincide
here. -/
theorem claim_C7_amended :
    lookupId "X" (assignLevels danglingGraph) = some 1
    ∧ maxLevelOf (assignLevels danglingGraph) = 1
    ∧ (calculateInitialLayout layoutConfigV1 danglingGraph).height = 1460
    ∧ (calculateInitialLayout layoutConfigV1 danglingFreeGraph).height = 880
    ∧ (calculateInitialLayout layoutConfigV1 danglingGraph).nodes
        = (calculateInitialLayout layoutConfigV1 danglingFreeGraph).nodes := by
  refine ⟨?_, ?_, ?_, ?_, ?_⟩ <;> decide

/-- C10: every laid-out node card lies fully inside the reported canvas
extent, for both whiteboard variants' constants. -/
theorem claim_C10 (data : AnalysisResult) (_hne : data.screens ≠ [])
    (_hnd : (data.screens.map ScreenNode.id).Nodup) :
    (∀ n ∈ (calculateInitialLayout layoutConfigV1 data).nodes,
      0 ≤ n.x ∧ 0 ≤ n.y
      ∧ n.x + 240 ≤ (calculateInitialLayout layoutConfigV1 data).width
      ∧ n.y + 460 ≤ (calculateInitialLayout layoutConfigV1 data).height)
    ∧ (∀ n ∈ (calculateInitialLayout layoutConfigV2 data).nodes,
      0 ≤ n.x ∧ 0 ≤ n.y
      ∧ n.x + 1024 ≤ (calculateInitialLayout layoutConfigV2 data).width
      ∧ n.y + 800 ≤ (calculateInitialLayout layoutConfigV2 data).height) :=
  ⟨layout_inBounds layoutConfigV1 data (by norm_num [layoutConfigV1])
      (by norm_num [layoutConfigV1]) (by norm_num [layoutConfigV1])
      (by norm_num [layoutConfigV1]) (by norm_num [layoutConfigV1])
      (by norm_num [layoutConfigV1]) (by norm_num [layoutConfigV1])
      (by norm_num [layoutConfigV1]),
   layout_inBounds layoutConfigV2 data (by norm_num [layoutConfigV2])
      (by norm_num [layoutConfigV2]) (by norm_num [layoutConfigV2])
      (by norm_num [layoutConfigV2]) (by norm_num [layoutConfigV2])
      (by norm_num [layoutConfigV2]) (by norm_num [layoutConfigV2])
      (by norm_num [layoutConfigV2])⟩

/-- Witness for `claim_C10` on the fork scenario. -/
theorem claim_C10_witness :
    (∀ n ∈ (calculateInitialLayout layoutConfigV1 forkGraph).nodes,
      0 ≤ n.x ∧ 0 ≤ n.y
      ∧ n.x + 240 ≤ (calculateInitialLayout layoutConfigV1 forkGraph).width
      ∧ n.y + 460 ≤ (calculateInitialLayout layoutConfigV1 forkGraph).height)
    ∧ (∀ n ∈ (calculateInitialLayout layoutConfigV2 forkGraph).nodes,
      0 ≤ n.x ∧ 0 ≤ n.y
      ∧ n.x + 1024 ≤ (calculateInitialLayout layoutConfigV2 forkGraph).width
      ∧ n.y + 800 ≤ (calculateInitialLayout layoutConfigV2 forkGraph).height) :=
  claim_C10 forkGraph (by decide) (by decide)

end UXFlow
